import Mathlib

/-!
Shallow embedding of the pantui HLS core: the manifest parser
(package `hls`: `parseContent`, `parseMasterManifest`, `parseMediaManifest`,
`parseAttributes`, `splitAttributes`, `parseTag`, `isMasterManifest`,
`ResolveURL`) and the renderer's navigable-item extractor (package `views`:
`GetNavigableItems`, `extractURIFromTag`, `extractAttributeValue`,
`splitAttributes`).

Strings are modelled as `List Char`.  The Go standard-library helpers the
code uses (`strings.TrimSpace`, `strings.HasPrefix`, `strings.TrimPrefix`,
`strings.Index`, `strings.Contains`, `strings.Split`, `bufio.Scanner` with
`ScanLines`, `strconv.Atoi`, `strconv.ParseFloat`) are modelled below.
Abstractions, each noted at its definition: `TrimSpace` trims the ASCII /
Latin-1 part of Unicode whitespace; `Atoi` / `ParseFloat` ignore 64-bit
overflow; `ParseFloat` models the decimal syntax (not hex floats,
"inf"/"nan", or digit-separating underscores) and yields the exact rational
value rather than the nearest binary float64 (no claim depends on rounding);
the `bufio.Scanner` 64KiB line-length limit is not modelled.  Go's `*Key` /
`*Map` pointer fields are modelled by value (`Option Key` / `Option Map`):
the Go code never mutates a pointee, it only rebinds the pointer to a newly
allocated struct, so value semantics observationally coincide.
-/

/-- ASCII/Latin-1 whitespace as recognised by Go `unicode.IsSpace`
(space, \t, \n, \v, \f, \r, NEL, NBSP); higher Unicode space code points
are not modelled. -/
def isSpaceChar (c : Char) : Bool :=
  c.toNat = 32 || c.toNat = 9 || c.toNat = 10 || c.toNat = 11 ||
  c.toNat = 12 || c.toNat = 13 || c.toNat = 133 || c.toNat = 160

/-- Go `strings.TrimSpace`. -/
def trimSpace (s : List Char) : List Char :=
  ((s.dropWhile isSpaceChar).reverse.dropWhile isSpaceChar).reverse

/-- Go `strings.HasPrefix s pat`. -/
def startsWith : List Char → List Char → Bool
  | _, [] => true
  | [], _ :: _ => false
  | c :: cs, p :: ps => c = p && startsWith cs ps

/-- Go `strings.TrimPrefix s pat`. -/
def dropStart (s pat : List Char) : List Char :=
  if startsWith s pat then s.drop pat.length else s

/-- Go `strings.Index s (string c)` for a one-character pattern. -/
def indexOfChar : List Char → Char → Option Nat
  | [], _ => none
  | c :: cs, t => if c = t then some 0 else (indexOfChar cs t).map (· + 1)

/-- Go `strings.Index s pat`: index of the first occurrence of `pat`. -/
def indexOfSub : List Char → List Char → Option Nat
  | [], pat => if pat = [] then some 0 else none
  | c :: cs, pat =>
    if startsWith (c :: cs) pat then some 0 else (indexOfSub cs pat).map (· + 1)

/-- Go `strings.Contains s pat`. -/
def containsSub (s pat : List Char) : Bool :=
  (indexOfSub s pat).isSome

/-- Go `strings.Split s "\n"` (always at least one piece). -/
def splitOnChar (sep : Char) : List Char → List (List Char)
  | [] => [[]]
  | c :: cs =>
    if c = sep then [] :: splitOnChar sep cs
    else
      match splitOnChar sep cs with
      | [] => [[c]]
      | p :: ps => (c :: p) :: ps

/-- `bufio.ScanLines` drops one trailing carriage return from a line. -/
def dropFinalCR (l : List Char) : List Char :=
  match l.getLast? with
  | some '\r' => l.dropLast
  | _ => l

/-- The sequence of lines produced by `bufio.Scanner` with `ScanLines`:
split on newline, no empty token after a trailing newline, a trailing
`\r` stripped from each line.  (The scanner's 64KiB maximum token size is
not modelled.) -/
def scanLines (content : List Char) : List (List Char) :=
  let parts := splitOnChar '\n' content
  let parts := match parts.getLast? with
    | some [] => parts.dropLast
    | _ => parts
  parts.map dropFinalCR

/-- Digit string to number (caller guarantees digits only). -/
def digitsToNat (ds : List Char) : Nat :=
  ds.foldl (fun a c => a * 10 + (c.toNat - 48)) 0

def isDigitChar (c : Char) : Bool := 48 ≤ c.toNat && c.toNat ≤ 57

/-- Go `strconv.Atoi`: optional sign then one or more digits, nothing else.
64-bit overflow is not modelled (no claim involves values near 2^63). -/
def goAtoi (s : List Char) : Option Int :=
  let core : List Char → Option Nat := fun ds =>
    if ds ≠ [] && ds.all isDigitChar then some (digitsToNat ds) else none
  match s with
  | '+' :: rest => (core rest).map Int.ofNat
  | '-' :: rest => (core rest).map (fun n => -(n : Int))
  | _ => (core s).map Int.ofNat

/-- Value of a parsed decimal float, kept as an exact rational. -/
def ratOfParts (neg : Bool) (ip fp : List Char) (e : Int) : Rat :=
  let base : Rat := (digitsToNat ip : Rat) + (digitsToNat fp : Rat) / (10 : Rat) ^ fp.length
  let scaled : Rat := if 0 ≤ e then base * (10 : Rat) ^ e.toNat else base / (10 : Rat) ^ (-e).toNat
  if neg then -scaled else scaled

/-- Exponent-and-end of Go's decimal float syntax: empty, or
`(e|E)[+-]?digits+` consuming the whole rest. -/
def goFloatFinish (neg : Bool) (ip fp : List Char) : List Char → Option Rat
  | [] => some (ratOfParts neg ip fp 0)
  | e :: rest =>
    if e = 'e' || e = 'E' then
      let (eneg, ds) : Bool × List Char :=
        match rest with
        | '+' :: r => (false, r)
        | '-' :: r => (true, r)
        | r => (false, r)
      if ds ≠ [] && ds.all isDigitChar then
        some (ratOfParts neg ip fp (if eneg then -(digitsToNat ds : Int) else (digitsToNat ds : Int)))
      else none
    else none

/-- Go `strconv.ParseFloat _ 64` on the decimal syntax
`[+-]? (d+ | d+.d* | .d+) ((e|E)[+-]?d+)?`, returning the exact rational
denoted.  Hex floats, "inf"/"nan" spellings, digit-separating underscores
and float64 rounding/overflow are not modelled; no claim depends on them. -/
def goParseFloat (s : List Char) : Option Rat :=
  let (neg, s1) : Bool × List Char :=
    match s with
    | '+' :: r => (false, r)
    | '-' :: r => (true, r)
    | r => (false, r)
  let ip := s1.takeWhile isDigitChar
  let rest1 := s1.dropWhile isDigitChar
  match rest1 with
  | '.' :: r =>
    let fp := r.takeWhile isDigitChar
    let rest2 := r.dropWhile isDigitChar
    if ip = [] && fp = [] then none else goFloatFinish neg ip fp rest2
  | _ => if ip = [] then none else goFloatFinish neg ip [] rest1

namespace HLS

/-- Attribute maps: Go `map[string]string` modelled as an association list
with unique keys (insertion replaces an existing key's value in place). -/
abbrev AttrMap := List (List Char × List Char)

/-- Go map assignment `m[k] = v`. -/
def insertAttr : AttrMap → List Char → List Char → AttrMap
  | [], k, v => [(k, v)]
  | (k0, v0) :: rest, k, v =>
    if k0 = k then (k0, v) :: rest else (k0, v0) :: insertAttr rest k v

/-- Go map read `m[k]` distinguishing presence. -/
def lookupAttr : AttrMap → List Char → Option (List Char)
  | [], _ => none
  | (k0, v0) :: rest, k => if k0 = k then some v0 else lookupAttr rest k

/-- Go map read `m[k]` with the zero value `""` when absent. -/
def lookupD (m : AttrMap) (k : List Char) : List Char :=
  (lookupAttr m k).getD []

/-- `Parser.splitAttributes` scanning loop (parser.go): `cur` is the
`strings.Builder`, `inQ` the `inQuotes` flag. -/
def splitAttrsAux : List Char → Bool → List Char → List (List Char)
  | [], _, cur => if cur = [] then [] else [cur]
  | c :: cs, inQ, cur =>
    if c = '"' then splitAttrsAux cs (!inQ) (cur ++ [c])
    else if c = ',' then
      if inQ then splitAttrsAux cs inQ (cur ++ [c])
      else if cur = [] then splitAttrsAux cs inQ []
      else cur :: splitAttrsAux cs inQ []
    else splitAttrsAux cs inQ (cur ++ [c])

/-- `Parser.splitAttributes` (parser.go): quote-aware comma split, raw
segments (no trimming). -/
def splitAttributes (attrStr : List Char) : List (List Char) :=
  splitAttrsAux attrStr false []

/-- The `len(value) >= 2 && value[0] == '"' && value[len-1] == '"'`
unquoting step of `Parser.parseAttributes`. -/
def stripQuotes (v : List Char) : List Char :=
  if 2 ≤ v.length ∧ v.head? = some '"' ∧ v.getLast? = some '"' then
    (v.drop 1).dropLast
  else v

/-- The `for _, part := range parts` loop of `Parser.parseAttributes`. -/
def parseAttrsAux : List (List Char) → AttrMap → AttrMap
  | [], m => m
  | part :: rest, m =>
    match indexOfChar part '=' with
    | some i =>
      parseAttrsAux rest
        (insertAttr m (trimSpace (part.take i)) (stripQuotes (trimSpace (part.drop (i + 1)))))
    | none => parseAttrsAux rest m

/-- `Parser.parseAttributes` (parser.go). -/
def parseAttributes (attrStr : List Char) : AttrMap :=
  parseAttrsAux (splitAttributes attrStr) []

/-- `hls.Key`. -/
structure Key where
  method : List Char
  uri : List Char
  iv : List Char
  keyFormat : List Char
deriving DecidableEq

/-- `hls.Map` (EXT-X-MAP init-segment info). -/
structure Map where
  uri : List Char
  byteRange : List Char
deriving DecidableEq

/-- `hls.Segment`. -/
structure Segment where
  uri : List Char
  duration : Rat
  sequence : Int
  byteRange : List Char
  key : Option Key
  map : Option Map
deriving DecidableEq

/-- `hls.Variant`. -/
structure Variant where
  uri : List Char
  bandwidth : Int
  resolution : List Char
  codecs : List Char
  attributes : AttrMap
deriving DecidableEq

/-- `hls.Tag`. -/
structure Tag where
  name : List Char
  value : List Char
  attributes : AttrMap
  lineNumber : Nat
deriving DecidableEq

/-- `Parser.parseTag`. -/
def parseTag (line : List Char) (lineNumber : Nat) : Tag :=
  match indexOfChar line ':' with
  | some i =>
    { name := line.take i, value := line.drop (i + 1),
      attributes := parseAttributes (line.drop (i + 1)), lineNumber := lineNumber }
  | none => { name := line, value := [], attributes := [], lineNumber := lineNumber }

def cHASH : List Char := "#".toList
def cEXT : List Char := "#EXT".toList
def cVERSION : List Char := "#EXT-X-VERSION:".toList
def cTARGETDURATION : List Char := "#EXT-X-TARGETDURATION:".toList
def cMSEQ : List Char := "#EXT-X-MEDIA-SEQUENCE:".toList
def cEXTINF : List Char := "#EXTINF:".toList
def cBYTERANGE : List Char := "#EXT-X-BYTERANGE:".toList
def cKEY : List Char := "#EXT-X-KEY:".toList
def cMAP : List Char := "#EXT-X-MAP:".toList
def cSTREAMINF : List Char := "#EXT-X-STREAM-INF:".toList
def cSTREAMINFSub : List Char := "#EXT-X-STREAM-INF".toList
def cIFRAMESub : List Char := "#EXT-X-I-FRAME-STREAM-INF".toList
def aBANDWIDTH : List Char := "BANDWIDTH".toList
def aRESOLUTION : List Char := "RESOLUTION".toList
def aCODECS : List Char := "CODECS".toList
def aMETHOD : List Char := "METHOD".toList
def aURI : List Char := "URI".toList
def aIV : List Char := "IV".toList
def aKEYFORMAT : List Char := "KEYFORMAT".toList
def aBYTERANGE : List Char := "BYTERANGE".toList

/-- The `Key{...}` literal built in the `#EXT-X-KEY:` branch. -/
def keyOfAttrs (a : AttrMap) : Key :=
  { method := lookupD a aMETHOD, uri := lookupD a aURI,
    iv := lookupD a aIV, keyFormat := lookupD a aKEYFORMAT }

/-- The `Map{...}` literal built in the `#EXT-X-MAP:` branch. -/
def mapOfAttrs (a : AttrMap) : Map :=
  { uri := lookupD a aURI, byteRange := lookupD a aBYTERANGE }

/-- The `#EXTINF:` duration text: everything after the tag colon up to the
first comma (or to end of line). -/
def durOf (line : List Char) : List Char :=
  let ds := dropStart line cEXTINF
  match indexOfChar ds ',' with
  | some i => ds.take i
  | none => ds

/-- Loop state of `Parser.parseMediaManifest`: manifest fields it writes
plus the local variables (`sequence`, `currentSegment`, `currentKey`,
`currentMap`, accumulated `segments`, `tags`, `lineNumber`). -/
structure MediaState where
  version : Int
  targetDuration : Int
  mseq : Int
  seq : Int
  pending : Option Segment
  curKey : Option Key
  curMap : Option Map
  segments : List Segment
  tags : List Tag
  lineNumber : Nat
deriving DecidableEq

def initMediaState : MediaState :=
  { version := 0, targetDuration := 0, mseq := 0, seq := 0, pending := none,
    curKey := none, curMap := none, segments := [], tags := [], lineNumber := 0 }

/-- One iteration of the `scanner.Scan()` loop of
`Parser.parseMediaManifest`. -/
def mediaStep (st : MediaState) (raw : List Char) : MediaState :=
  let st0 := { st with lineNumber := st.lineNumber + 1 }
  let line := trimSpace raw
  if line = [] ∨ (startsWith line cHASH = true ∧ startsWith line cEXT = false) then st0
  else
    let st1 :=
      if startsWith line cVERSION = true then
        match goAtoi (dropStart line cVERSION) with
        | some v => { st0 with version := v }
        | none => st0
      else if startsWith line cTARGETDURATION = true then
        match goAtoi (dropStart line cTARGETDURATION) with
        | some d => { st0 with targetDuration := d }
        | none => st0
      else if startsWith line cMSEQ = true then
        match goAtoi (dropStart line cMSEQ) with
        | some n => { st0 with mseq := n, seq := n }
        | none => st0
      else if startsWith line cEXTINF = true then
        match goParseFloat (durOf line) with
        | some d =>
          { st0 with
            pending := some { uri := [], duration := d, sequence := st0.seq,
                              byteRange := [], key := st0.curKey, map := st0.curMap },
            seq := st0.seq + 1 }
        | none => st0
      else if startsWith line cBYTERANGE = true then
        match st0.pending with
        | some p => { st0 with pending := some { p with byteRange := dropStart line cBYTERANGE } }
        | none => st0
      else if startsWith line cKEY = true then
        { st0 with curKey := some (keyOfAttrs (parseAttributes (dropStart line cKEY))) }
      else if startsWith line cMAP = true then
        { st0 with curMap := some (mapOfAttrs (parseAttributes (dropStart line cMAP))) }
      else
        match st0.pending with
        | some p =>
          if startsWith line cHASH = false then
            { st0 with segments := st0.segments ++ [{ p with uri := line }], pending := none }
          else st0
        | none => st0
    if startsWith line cEXT = true then
      { st1 with tags := st1.tags ++ [parseTag line st1.lineNumber] }
    else st1

def mediaRun : MediaState → List (List Char) → MediaState
  | st, [] => st
  | st, l :: ls => mediaRun (mediaStep st l) ls

/-- `Parser.parseMediaManifest` over the manifest content. -/
def parseMediaManifest (content : List Char) : MediaState :=
  mediaRun initMediaState (scanLines content)

/-- Loop state of `Parser.parseMasterManifest`. -/
structure MasterState where
  version : Int
  pending : Option Variant
  variants : List Variant
  tags : List Tag
  lineNumber : Nat
deriving DecidableEq

def initMasterState : MasterState :=
  { version := 0, pending := none, variants := [], tags := [], lineNumber := 0 }

/-- The conditional promotions of `BANDWIDTH` / `RESOLUTION` / `CODECS` in
the `#EXT-X-STREAM-INF:` branch. -/
def variantOfAttrs (attrs : AttrMap) : Variant :=
  let v0 : Variant :=
    { uri := [], bandwidth := 0, resolution := [], codecs := [], attributes := attrs }
  let v1 :=
    match lookupAttr attrs aBANDWIDTH with
    | some b =>
      match goAtoi b with
      | some bw => { v0 with bandwidth := bw }
      | none => v0
    | none => v0
  let v2 :=
    match lookupAttr attrs aRESOLUTION with
    | some r => { v1 with resolution := r }
    | none => v1
  match lookupAttr attrs aCODECS with
  | some c => { v2 with codecs := c }
  | none => v2

/-- One iteration of the `scanner.Scan()` loop of
`Parser.parseMasterManifest`. -/
def masterStep (st : MasterState) (raw : List Char) : MasterState :=
  let st0 := { st with lineNumber := st.lineNumber + 1 }
  let line := trimSpace raw
  if line = [] ∨ (startsWith line cHASH = true ∧ startsWith line cEXT = false) then st0
  else
    let st1 :=
      if startsWith line cVERSION = true then
        match goAtoi (dropStart line cVERSION) with
        | some v => { st0 with version := v }
        | none => st0
      else if startsWith line cSTREAMINF = true then
        { st0 with pending := some (variantOfAttrs (parseAttributes (dropStart line cSTREAMINF))) }
      else
        match st0.pending with
        | some p =>
          if startsWith line cHASH = false then
            { st0 with variants := st0.variants ++ [{ p with uri := line }], pending := none }
          else st0
        | none => st0
    if startsWith line cEXT = true then
      { st1 with tags := st1.tags ++ [parseTag line st1.lineNumber] }
    else st1

def masterRun : MasterState → List (List Char) → MasterState
  | st, [] => st
  | st, l :: ls => masterRun (masterStep st l) ls

/-- `Parser.parseMasterManifest` over the manifest content. -/
def parseMasterManifest (content : List Char) : MasterState :=
  masterRun initMasterState (scanLines content)

/-- `Parser.isMasterManifest`. -/
def isMasterManifest (content : List Char) : Bool :=
  containsSub content cSTREAMINFSub || containsSub content cIFRAMESub

inductive ManifestType where
  | master
  | media
deriving DecidableEq

/-- `hls.Line`: a classified manifest line (`Type` field modelled as the
literal Go string it holds). -/
structure Line where
  number : Nat
  content : List Char
  ltype : List Char
deriving DecidableEq

/-- `Parser.getLineType`. -/
def getLineType (line : List Char) : List Char :=
  if line = [] then "empty".toList
  else if startsWith line cEXT = true then "tag".toList
  else if startsWith line cHASH = true then "comment".toList
  else "uri".toList

def numberLines : Nat → List (List Char) → List Line
  | _, [] => []
  | n, l :: ls =>
    { number := n, content := trimSpace l, ltype := getLineType (trimSpace l) } :: numberLines (n + 1) ls

/-- `hls.Manifest`, restricted to the fields the parser computes from the
content (`URL`, `Content`, `BaseURL` merely echo inputs and are omitted;
Go's nil slices are the empty list). -/
structure Manifest where
  mtype : ManifestType
  lines : List Line
  variants : List Variant
  segments : List Segment
  tags : List Tag
  targetDuration : Int
  version : Int
  sequence : Int
deriving DecidableEq

/-- `Parser.parseContent`: classify, then run the matching builder. -/
def parseContent (content : List Char) : Manifest :=
  let lines := numberLines 1 (splitOnChar '\n' content)
  if isMasterManifest content then
    let fs := parseMasterManifest content
    { mtype := ManifestType.master, lines := lines, variants := fs.variants,
      segments := [], tags := fs.tags, targetDuration := 0,
      version := fs.version, sequence := 0 }
  else
    let fs := parseMediaManifest content
    { mtype := ManifestType.media, lines := lines, variants := [],
      segments := fs.segments, tags := fs.tags, targetDuration := fs.targetDuration,
      version := fs.version, sequence := fs.mseq }

def cHTTP : List Char := "http://".toList
def cHTTPS : List Char := "https://".toList

/-- `Parser.ResolveURL`.  The non-absolute branches delegate to
`net/url` reference resolution / `path.Join` on the recorded base;
they are outside the repository and are abstracted as the explicit
`fallback` argument (every claim about `ResolveURL` concerns only
already-absolute inputs, so it must hold for every fallback). -/
def resolveURL (fallback : List Char → List Char → List Char)
    (baseURL relativeURL : List Char) : List Char :=
  if startsWith relativeURL cHTTP = true ∨ startsWith relativeURL cHTTPS = true then
    relativeURL
  else fallback baseURL relativeURL

end HLS

namespace Views

/-- `ManifestRenderer.splitAttributes` (manifest_renderer.go): same
quote-aware scan as the parser's, but each emitted segment is passed
through `strings.TrimSpace`. -/
def splitAttrsAux : List Char → Bool → List Char → List (List Char)
  | [], _, cur => if cur = [] then [] else [trimSpace cur]
  | c :: cs, inQ, cur =>
    if c = '"' then splitAttrsAux cs (!inQ) (cur ++ [c])
    else if c = ',' then
      if inQ then splitAttrsAux cs inQ (cur ++ [c])
      else if cur = [] then splitAttrsAux cs inQ []
      else trimSpace cur :: splitAttrsAux cs inQ []
    else splitAttrsAux cs inQ (cur ++ [c])

/-- `ManifestRenderer.splitAttributes`. -/
def splitAttributes (attrStr : List Char) : List (List Char) :=
  splitAttrsAux attrStr false []

/-- Lines 107-128 of `ManifestRenderer.extractAttributeValue` acting on
`line[valueStart:]` (that is, `line.drop valueStart`): the out-of-range
guard, the `line[valueStart] == '"'` test with read-to-closing-quote, and
the unquoted read-to-comma-or-end. -/
def readAttrValue : List Char → List Char
  | [] => []
  | c :: rest =>
    if c = '"' then
      match indexOfChar rest '"' with
      | none => []
      | some e => rest.take e
    else
      match indexOfChar (c :: rest) ',' with
      | none => c :: rest
      | some e => (c :: rest).take e

/-- `ManifestRenderer.extractAttributeValue`. -/
def extractAttributeValue (line attributeName : List Char) : List Char :=
  let attrPre := attributeName ++ "=".toList
  match indexOfSub line attrPre with
  | none => []
  | some attrIndex =>
    let valueStart := attrIndex + attrPre.length
    readAttrValue (line.drop valueStart)

def cIFRAMETag : List Char := "#EXT-X-I-FRAME-STREAM-INF:".toList
def cMEDIATag : List Char := "#EXT-X-MEDIA:".toList

/-- `ManifestRenderer.extractURIFromTag`. -/
def extractURIFromTag (line : List Char) : List Char :=
  if startsWith line cIFRAMETag = true then extractAttributeValue line HLS.aURI
  else if startsWith line cMEDIATag = true then extractAttributeValue line HLS.aURI
  else []

/-- The `for i, line := range lines` loop of
`ManifestRenderer.GetNavigableItems` (the Go `map[int]string` is modelled
as the insertion-ordered list of its entries; line numbers are unique). -/
def navAux (n : Nat) : List (List Char) → List (Nat × List Char)
  | [] => []
  | l :: ls =>
    let t := trimSpace l
    if t = [] then navAux (n + 1) ls
    else if startsWith t HLS.cHASH = false then (n, t) :: navAux (n + 1) ls
    else
      let uri := extractURIFromTag t
      if uri = [] then navAux (n + 1) ls else (n, uri) :: navAux (n + 1) ls

/-- `ManifestRenderer.GetNavigableItems` over the raw manifest text
(`strings.Split` on newline, 1-based line numbers). -/
def getNavigableItems (content : List Char) : List (Nat × List Char) :=
  navAux 1 (splitOnChar '\n' content)

/-- Reading the modelled `map[int]string`. -/
def lookupNav : List (Nat × List Char) → Nat → Option (List Char)
  | [], _ => none
  | (m, u) :: rest, n => if m = n then some u else lookupNav rest n

end Views

/-! ### Elementary facts about the string helpers -/

theorem startsWith_nil (s : List Char) : startsWith s [] = true := by
  cases s <;> rfl

theorem startsWith_comparable :
    ∀ (s a b : List Char), startsWith s a = true → startsWith s b = true →
      startsWith a b = true ∨ startsWith b a = true := by
  intro s
  induction s with
  | nil =>
    intro a b ha hb
    cases a with
    | nil => right; exact startsWith_nil b
    | cons c cs => simp [startsWith] at ha
  | cons c cs ih =>
    intro a b ha hb
    cases a with
    | nil => right; exact startsWith_nil b
    | cons x xs =>
      cases b with
      | nil => left; exact startsWith_nil (x :: xs)
      | cons y ys =>
        simp only [startsWith, Bool.and_eq_true, decide_eq_true_eq] at ha hb
        rcases ih xs ys ha.2 hb.2 with h | h
        · left
          simp only [startsWith, Bool.and_eq_true, decide_eq_true_eq]
          exact ⟨ha.1.symm.trans hb.1, h⟩
        · right
          simp only [startsWith, Bool.and_eq_true, decide_eq_true_eq]
          exact ⟨hb.1.symm.trans ha.1, h⟩

theorem sw_trans :
    ∀ (b a s : List Char), startsWith s a = true → startsWith a b = true →
      startsWith s b = true := by
  intro b
  induction b with
  | nil => intro a s _ _; exact startsWith_nil s
  | cons y ys ih =>
    intro a s ha hb
    cases a with
    | nil => simp [startsWith] at hb
    | cons x xs =>
      cases s with
      | nil => simp [startsWith] at ha
      | cons c cs =>
        simp only [startsWith, Bool.and_eq_true, decide_eq_true_eq] at ha hb ⊢
        exact ⟨ha.1.trans hb.1, ih xs cs ha.2 hb.2⟩

theorem sw_excl (s a b : List Char) (h1 : startsWith a b = false)
    (h2 : startsWith b a = false) (ha : startsWith s a = true) :
    startsWith s b = false := by
  by_contra hb
  rw [Bool.not_eq_false] at hb
  rcases startsWith_comparable s a b ha hb with h | h
  · rw [h1] at h; exact Bool.false_ne_true h
  · rw [h2] at h; exact Bool.false_ne_true h

theorem startsWith_ne_nil (s pat : List Char) (hp : pat ≠ [])
    (h : startsWith s pat = true) : s ≠ [] := by
  cases s with
  | nil => cases pat with
    | nil => exact absurd rfl hp
    | cons c cs => simp [startsWith] at h
  | cons c cs => exact List.cons_ne_nil c cs

theorem sw_not_hash (t : List Char) (h : startsWith t HLS.cHASH = false) :
    startsWith t HLS.cEXT = false := by
  by_contra hb
  rw [Bool.not_eq_false] at hb
  have := sw_trans HLS.cHASH HLS.cEXT t hb (by decide)
  rw [h] at this
  exact Bool.false_ne_true this

/-! ### Case analysis of one parser-loop iteration -/

open HLS

/-- Exhaustive description of `mediaStep`: every scanner line falls in
exactly one of the twelve cases of the Go loop body (skipped line,
version / target-duration / media-sequence / EXTINF tag with parse success
or failure, byte-range, key, map, committing URI line, other `#EXT` tag). -/
theorem mediaStep_classify (st : MediaState) (raw t : List Char)
    (ht : t = trimSpace raw) :
    ((t = [] ∨ (startsWith t cHASH = true ∧ startsWith t cEXT = false)) ∧
      mediaStep st raw = { st with lineNumber := st.lineNumber + 1 }) ∨
    (startsWith t cVERSION = true ∧
      mediaStep st raw =
        { st with lineNumber := st.lineNumber + 1,
                  version := (goAtoi (dropStart t cVERSION)).getD st.version,
                  tags := st.tags ++ [parseTag t (st.lineNumber + 1)] }) ∨
    (startsWith t cTARGETDURATION = true ∧
      mediaStep st raw =
        { st with lineNumber := st.lineNumber + 1,
                  targetDuration := (goAtoi (dropStart t cTARGETDURATION)).getD st.targetDuration,
                  tags := st.tags ++ [parseTag t (st.lineNumber + 1)] }) ∨
    (startsWith t cMSEQ = true ∧ ∃ n, goAtoi (dropStart t cMSEQ) = some n ∧
      mediaStep st raw =
        { st with lineNumber := st.lineNumber + 1, mseq := n, seq := n,
                  tags := st.tags ++ [parseTag t (st.lineNumber + 1)] }) ∨
    (startsWith t cMSEQ = true ∧ goAtoi (dropStart t cMSEQ) = none ∧
      mediaStep st raw =
        { st with lineNumber := st.lineNumber + 1,
                  tags := st.tags ++ [parseTag t (st.lineNumber + 1)] }) ∨
    (startsWith t cEXTINF = true ∧ ∃ d, goParseFloat (durOf t) = some d ∧
      mediaStep st raw =
        { st with lineNumber := st.lineNumber + 1,
                  pending := some { uri := [], duration := d, sequence := st.seq,
                                    byteRange := [], key := st.curKey, map := st.curMap },
                  seq := st.seq + 1,
                  tags := st.tags ++ [parseTag t (st.lineNumber + 1)] }) ∨
    (startsWith t cEXTINF = true ∧ goParseFloat (durOf t) = none ∧
      mediaStep st raw =
        { st with lineNumber := st.lineNumber + 1,
                  tags := st.tags ++ [parseTag t (st.lineNumber + 1)] }) ∨
    (startsWith t cBYTERANGE = true ∧
      mediaStep st raw =
        { st with lineNumber := st.lineNumber + 1,
                  pending := st.pending.map (fun p => { p with byteRange := dropStart t cBYTERANGE }),
                  tags := st.tags ++ [parseTag t (st.lineNumber + 1)] }) ∨
    (startsWith t cKEY = true ∧
      mediaStep st raw =
        { st with lineNumber := st.lineNumber + 1,
                  curKey := some (keyOfAttrs (parseAttributes (dropStart t cKEY))),
                  tags := st.tags ++ [parseTag t (st.lineNumber + 1)] }) ∨
    (startsWith t cMAP = true ∧
      mediaStep st raw =
        { st with lineNumber := st.lineNumber + 1,
                  curMap := some (mapOfAttrs (parseAttributes (dropStart t cMAP))),
                  tags := st.tags ++ [parseTag t (st.lineNumber + 1)] }) ∨
    (t ≠ [] ∧ startsWith t cHASH = false ∧
      mediaStep st raw =
        (match st.pending with
         | some p =>
           { st with lineNumber := st.lineNumber + 1,
                     segments := st.segments ++ [{ p with uri := t }], pending := none }
         | none => { st with lineNumber := st.lineNumber + 1 })) ∨
    (startsWith t cEXT = true ∧ startsWith t cVERSION = false ∧
      startsWith t cTARGETDURATION = false ∧ startsWith t cMSEQ = false ∧
      startsWith t cEXTINF = false ∧ startsWith t cBYTERANGE = false ∧
      startsWith t cKEY = false ∧ startsWith t cMAP = false ∧
      mediaStep st raw =
        { st with lineNumber := st.lineNumber + 1,
                  tags := st.tags ++ [parseTag t (st.lineNumber + 1)] }) := by
  subst ht
  by_cases hskip : (trimSpace raw = [] ∨
      (startsWith (trimSpace raw) cHASH = true ∧ startsWith (trimSpace raw) cEXT = false))
  · exact Or.inl ⟨hskip, by cases st; simp [mediaStep, hskip]⟩
  by_cases hv : startsWith (trimSpace raw) cVERSION = true
  · have hEXT : startsWith (trimSpace raw) cEXT = true := sw_trans _ _ _ hv (by decide)
    have hne : trimSpace raw ≠ [] := startsWith_ne_nil _ _ (by decide) hv
    refine Or.inr (Or.inl ⟨hv, ?_⟩)
    cases st
    cases hA : goAtoi (dropStart (trimSpace raw) cVERSION) <;>
      simp [mediaStep, hne, hv, hEXT, hA]
  rw [Bool.not_eq_true] at hv
  by_cases htd : startsWith (trimSpace raw) cTARGETDURATION = true
  · have hEXT : startsWith (trimSpace raw) cEXT = true := sw_trans _ _ _ htd (by decide)
    have hne : trimSpace raw ≠ [] := startsWith_ne_nil _ _ (by decide) htd
    refine Or.inr (Or.inr (Or.inl ⟨htd, ?_⟩))
    cases st
    cases hA : goAtoi (dropStart (trimSpace raw) cTARGETDURATION) <;>
      simp [mediaStep, hne, hv, htd, hEXT, hA]
  rw [Bool.not_eq_true] at htd
  by_cases hms : startsWith (trimSpace raw) cMSEQ = true
  · have hEXT : startsWith (trimSpace raw) cEXT = true := sw_trans _ _ _ hms (by decide)
    have hne : trimSpace raw ≠ [] := startsWith_ne_nil _ _ (by decide) hms
    cases hA : goAtoi (dropStart (trimSpace raw) cMSEQ) with
    | some n =>
      refine Or.inr (Or.inr (Or.inr (Or.inl ⟨hms, n, rfl, ?_⟩)))
      cases st
      simp [mediaStep, hne, hv, htd, hms, hEXT, hA]
    | none =>
      refine Or.inr (Or.inr (Or.inr (Or.inr (Or.inl ⟨hms, rfl, ?_⟩))))
      cases st
      simp [mediaStep, hne, hv, htd, hms, hEXT, hA]
  rw [Bool.not_eq_true] at hms
  by_cases hinf : startsWith (trimSpace raw) cEXTINF = true
  · have hEXT : startsWith (trimSpace raw) cEXT = true := sw_trans _ _ _ hinf (by decide)
    have hne : trimSpace raw ≠ [] := startsWith_ne_nil _ _ (by decide) hinf
    cases hA : goParseFloat (durOf (trimSpace raw)) with
    | some d =>
      refine Or.inr (Or.inr (Or.inr (Or.inr (Or.inr (Or.inl ⟨hinf, d, rfl, ?_⟩)))))
      cases st
      simp [mediaStep, hne, hv, htd, hms, hinf, hEXT, hA]
    | none =>
      refine Or.inr (Or.inr (Or.inr (Or.inr (Or.inr (Or.inr (Or.inl ⟨hinf, rfl, ?_⟩))))))
      cases st
      simp [mediaStep, hne, hv, htd, hms, hinf, hEXT, hA]
  rw [Bool.not_eq_true] at hinf
  by_cases hbr : startsWith (trimSpace raw) cBYTERANGE = true
  · have hEXT : startsWith (trimSpace raw) cEXT = true := sw_trans _ _ _ hbr (by decide)
    have hne : trimSpace raw ≠ [] := startsWith_ne_nil _ _ (by decide) hbr
    refine Or.inr (Or.inr (Or.inr (Or.inr (Or.inr (Or.inr (Or.inr (Or.inl ⟨hbr, ?_⟩)))))))
    obtain ⟨ver, td, mq, sq, pend, ck, cm, segs, tgs, ln⟩ := st
    cases pend <;> simp [mediaStep, hne, hv, htd, hms, hinf, hbr, hEXT]
  rw [Bool.not_eq_true] at hbr
  by_cases hk : startsWith (trimSpace raw) cKEY = true
  · have hEXT : startsWith (trimSpace raw) cEXT = true := sw_trans _ _ _ hk (by decide)
    have hne : trimSpace raw ≠ [] := startsWith_ne_nil _ _ (by decide) hk
    refine Or.inr (Or.inr (Or.inr (Or.inr (Or.inr (Or.inr (Or.inr (Or.inr (Or.inl ⟨hk, ?_⟩))))))))
    cases st
    simp [mediaStep, hne, hv, htd, hms, hinf, hbr, hk, hEXT]
  rw [Bool.not_eq_true] at hk
  by_cases hm : startsWith (trimSpace raw) cMAP = true
  · have hEXT : startsWith (trimSpace raw) cEXT = true := sw_trans _ _ _ hm (by decide)
    have hne : trimSpace raw ≠ [] := startsWith_ne_nil _ _ (by decide) hm
    refine Or.inr (Or.inr (Or.inr (Or.inr (Or.inr (Or.inr (Or.inr (Or.inr (Or.inr (Or.inl ⟨hm, ?_⟩)))))))))
    cases st
    simp [mediaStep, hne, hv, htd, hms, hinf, hbr, hk, hm, hEXT]
  rw [Bool.not_eq_true] at hm
  by_cases hh : startsWith (trimSpace raw) cHASH = true
  · have hEXT : startsWith (trimSpace raw) cEXT = true := by
      by_contra hc
      rw [Bool.not_eq_true] at hc
      exact hskip (Or.inr ⟨hh, hc⟩)
    have hne : trimSpace raw ≠ [] := startsWith_ne_nil _ _ (by decide) hh
    refine Or.inr (Or.inr (Or.inr (Or.inr (Or.inr (Or.inr (Or.inr (Or.inr (Or.inr (Or.inr (Or.inr
      ⟨hEXT, hv, htd, hms, hinf, hbr, hk, hm, ?_⟩))))))))))
    obtain ⟨ver, td, mq, sq, pend, ck, cm, segs, tgs, ln⟩ := st
    cases pend <;> simp [mediaStep, hne, hv, htd, hms, hinf, hbr, hk, hm, hh, hEXT]
  rw [Bool.not_eq_true] at hh
  have hne : trimSpace raw ≠ [] := fun hc => hskip (Or.inl hc)
  have hEXT : startsWith (trimSpace raw) cEXT = false := sw_not_hash _ hh
  refine Or.inr (Or.inr (Or.inr (Or.inr (Or.inr (Or.inr (Or.inr (Or.inr (Or.inr (Or.inr (Or.inl
    ⟨hne, hh, ?_⟩))))))))))
  obtain ⟨ver, td, mq, sq, pend, ck, cm, segs, tgs, ln⟩ := st
  cases pend <;> simp [mediaStep, hne, hv, htd, hms, hinf, hbr, hk, hm, hh, hEXT]

/-- Exhaustive description of `masterStep`: skipped line, version tag,
`#EXT-X-STREAM-INF:` tag, committing URI line, or other `#EXT` tag. -/
theorem masterStep_classify (st : MasterState) (raw t : List Char)
    (ht : t = trimSpace raw) :
    ((t = [] ∨ (startsWith t cHASH = true ∧ startsWith t cEXT = false)) ∧
      masterStep st raw = { st with lineNumber := st.lineNumber + 1 }) ∨
    (startsWith t cVERSION = true ∧
      masterStep st raw =
        { st with lineNumber := st.lineNumber + 1,
                  version := (goAtoi (dropStart t cVERSION)).getD st.version,
                  tags := st.tags ++ [parseTag t (st.lineNumber + 1)] }) ∨
    (startsWith t cSTREAMINF = true ∧
      masterStep st raw =
        { st with lineNumber := st.lineNumber + 1,
                  pending := some (variantOfAttrs (parseAttributes (dropStart t cSTREAMINF))),
                  tags := st.tags ++ [parseTag t (st.lineNumber + 1)] }) ∨
    (t ≠ [] ∧ startsWith t cHASH = false ∧
      masterStep st raw =
        (match st.pending with
         | some p =>
           { st with lineNumber := st.lineNumber + 1,
                     variants := st.variants ++ [{ p with uri := t }], pending := none }
         | none => { st with lineNumber := st.lineNumber + 1 })) ∨
    (startsWith t cEXT = true ∧ startsWith t cVERSION = false ∧
      startsWith t cSTREAMINF = false ∧
      masterStep st raw =
        { st with lineNumber := st.lineNumber + 1,
                  tags := st.tags ++ [parseTag t (st.lineNumber + 1)] }) := by
  subst ht
  by_cases hskip : (trimSpace raw = [] ∨
      (startsWith (trimSpace raw) cHASH = true ∧ startsWith (trimSpace raw) cEXT = false))
  · exact Or.inl ⟨hskip, by cases st; simp [masterStep, hskip]⟩
  by_cases hv : startsWith (trimSpace raw) cVERSION = true
  · have hEXT : startsWith (trimSpace raw) cEXT = true := sw_trans _ _ _ hv (by decide)
    have hne : trimSpace raw ≠ [] := startsWith_ne_nil _ _ (by decide) hv
    refine Or.inr (Or.inl ⟨hv, ?_⟩)
    cases st
    cases hA : goAtoi (dropStart (trimSpace raw) cVERSION) <;>
      simp [masterStep, hne, hv, hEXT, hA]
  rw [Bool.not_eq_true] at hv
  by_cases hsi : startsWith (trimSpace raw) cSTREAMINF = true
  · have hEXT : startsWith (trimSpace raw) cEXT = true := sw_trans _ _ _ hsi (by decide)
    have hne : trimSpace raw ≠ [] := startsWith_ne_nil _ _ (by decide) hsi
    refine Or.inr (Or.inr (Or.inl ⟨hsi, ?_⟩))
    cases st
    simp [masterStep, hne, hv, hsi, hEXT]
  rw [Bool.not_eq_true] at hsi
  by_cases hh : startsWith (trimSpace raw) cHASH = true
  · have hEXT : startsWith (trimSpace raw) cEXT = true := by
      by_contra hc
      rw [Bool.not_eq_true] at hc
      exact hskip (Or.inr ⟨hh, hc⟩)
    have hne : trimSpace raw ≠ [] := startsWith_ne_nil _ _ (by decide) hh
    refine Or.inr (Or.inr (Or.inr (Or.inr ⟨hEXT, hv, hsi, ?_⟩)))
    obtain ⟨ver, pend, vars, tgs, ln⟩ := st
    cases pend <;> simp [masterStep, hne, hv, hsi, hh, hEXT]
  rw [Bool.not_eq_true] at hh
  have hne : trimSpace raw ≠ [] := fun hc => hskip (Or.inl hc)
  have hEXT : startsWith (trimSpace raw) cEXT = false := sw_not_hash _ hh
  refine Or.inr (Or.inr (Or.inr (Or.inl ⟨hne, hh, ?_⟩)))
  obtain ⟨ver, pend, vars, tgs, ln⟩ := st
  cases pend <;> simp [masterStep, hne, hv, hsi, hh, hEXT]

/-! ### Run-level helper lemmas -/

theorem mediaRun_append (st : MediaState) (ls1 ls2 : List (List Char)) :
    mediaRun st (ls1 ++ ls2) = mediaRun (mediaRun st ls1) ls2 := by
  induction ls1 generalizing st with
  | nil => rfl
  | cons l ls ih => simp [mediaRun, ih]

theorem masterRun_append (st : MasterState) (ls1 ls2 : List (List Char)) :
    masterRun st (ls1 ++ ls2) = masterRun (masterRun st ls1) ls2 := by
  induction ls1 generalizing st with
  | nil => rfl
  | cons l ls ih => simp [masterRun, ih]

/-- A single media step never removes or edits already-committed segments:
it either leaves `segments` unchanged or appends one segment. -/
theorem mediaStep_segments_extend (st : MediaState) (raw : List Char) :
    (mediaStep st raw).segments = st.segments ∨
      ∃ p, st.pending = some p ∧
        (mediaStep st raw).segments = st.segments ++ [{ p with uri := trimSpace raw }] := by
  rcases mediaStep_classify st raw (trimSpace raw) rfl with
    ⟨_, he⟩ | ⟨_, he⟩ | ⟨_, he⟩ | ⟨_, n, _, he⟩ | ⟨_, _, he⟩ | ⟨_, d, _, he⟩ |
    ⟨_, _, he⟩ | ⟨_, he⟩ | ⟨_, he⟩ | ⟨_, he⟩ | ⟨_, _, he⟩ | ⟨_, _, _, _, _, _, _, _, he⟩ <;>
    rw [he] <;> try (left; rfl)
  · cases hp : st.pending with
    | some p => right; exact ⟨p, rfl, by simp⟩
    | none => left; simp

/-- Effect of a `#EXT-X-KEY:` line: `currentKey` is replaced by the newly
parsed Key value; nothing else (but the tag record) changes. -/
theorem mediaStep_keyline (st : MediaState) (raw : List Char)
    (h : startsWith (trimSpace raw) cKEY = true) :
    mediaStep st raw =
      { st with lineNumber := st.lineNumber + 1,
                curKey := some (keyOfAttrs (parseAttributes (dropStart (trimSpace raw) cKEY))),
                tags := st.tags ++ [parseTag (trimSpace raw) (st.lineNumber + 1)] } := by
  have hEXT : startsWith (trimSpace raw) cEXT = true := sw_trans _ _ _ h (by decide)
  have hne : trimSpace raw ≠ [] := startsWith_ne_nil _ _ (by decide) h
  have hv : startsWith (trimSpace raw) cVERSION = false :=
    sw_excl _ _ _ (by decide) (by decide) h
  have htd : startsWith (trimSpace raw) cTARGETDURATION = false :=
    sw_excl _ _ _ (by decide) (by decide) h
  have hms : startsWith (trimSpace raw) cMSEQ = false :=
    sw_excl _ _ _ (by decide) (by decide) h
  have hinf : startsWith (trimSpace raw) cEXTINF = false :=
    sw_excl _ _ _ (by decide) (by decide) h
  have hbr : startsWith (trimSpace raw) cBYTERANGE = false :=
    sw_excl _ _ _ (by decide) (by decide) h
  cases st
  simp [mediaStep, hne, hv, htd, hms, hinf, hbr, h, hEXT]

/-- Effect of a `#EXT-X-MAP:` line. -/
theorem mediaStep_mapline (st : MediaState) (raw : List Char)
    (h : startsWith (trimSpace raw) cMAP = true) :
    mediaStep st raw =
      { st with lineNumber := st.lineNumber + 1,
                curMap := some (mapOfAttrs (parseAttributes (dropStart (trimSpace raw) cMAP))),
                tags := st.tags ++ [parseTag (trimSpace raw) (st.lineNumber + 1)] } := by
  have hEXT : startsWith (trimSpace raw) cEXT = true := sw_trans _ _ _ h (by decide)
  have hne : trimSpace raw ≠ [] := startsWith_ne_nil _ _ (by decide) h
  have hv : startsWith (trimSpace raw) cVERSION = false :=
    sw_excl _ _ _ (by decide) (by decide) h
  have htd : startsWith (trimSpace raw) cTARGETDURATION = false :=
    sw_excl _ _ _ (by decide) (by decide) h
  have hms : startsWith (trimSpace raw) cMSEQ = false :=
    sw_excl _ _ _ (by decide) (by decide) h
  have hinf : startsWith (trimSpace raw) cEXTINF = false :=
    sw_excl _ _ _ (by decide) (by decide) h
  have hbr : startsWith (trimSpace raw) cBYTERANGE = false :=
    sw_excl _ _ _ (by decide) (by decide) h
  have hk : startsWith (trimSpace raw) cKEY = false :=
    sw_excl _ _ _ (by decide) (by decide) h
  cases st
  simp [mediaStep, hne, hv, htd, hms, hinf, hbr, hk, h, hEXT]

/-- Effect of an `#EXTINF:` line whose duration parses: a pending segment
is started, snapshotting the current key/map state and the running
sequence counter, which is then incremented. -/
theorem mediaStep_extinf_ok (st : MediaState) (raw : List Char) (d : Rat)
    (h : startsWith (trimSpace raw) cEXTINF = true)
    (hd : goParseFloat (durOf (trimSpace raw)) = some d) :
    mediaStep st raw =
      { st with lineNumber := st.lineNumber + 1,
                pending := some { uri := [], duration := d, sequence := st.seq,
                                  byteRange := [], key := st.curKey, map := st.curMap },
                seq := st.seq + 1,
                tags := st.tags ++ [parseTag (trimSpace raw) (st.lineNumber + 1)] } := by
  have hEXT : startsWith (trimSpace raw) cEXT = true := sw_trans _ _ _ h (by decide)
  have hne : trimSpace raw ≠ [] := startsWith_ne_nil _ _ (by decide) h
  have hv : startsWith (trimSpace raw) cVERSION = false :=
    sw_excl _ _ _ (by decide) (by decide) h
  have htd : startsWith (trimSpace raw) cTARGETDURATION = false :=
    sw_excl _ _ _ (by decide) (by decide) h
  have hms : startsWith (trimSpace raw) cMSEQ = false :=
    sw_excl _ _ _ (by decide) (by decide) h
  cases st
  simp [mediaStep, hne, hv, htd, hms, h, hEXT, hd]

/-- Effect of an `#EXTINF:` line whose duration does not parse: except for
the recorded tag (and line counter) the state is untouched — in particular
no pending segment is created, an existing pending segment survives, and
the sequence counter is not incremented. -/
theorem mediaStep_extinf_bad (st : MediaState) (raw : List Char)
    (h : startsWith (trimSpace raw) cEXTINF = true)
    (hd : goParseFloat (durOf (trimSpace raw)) = none) :
    mediaStep st raw =
      { st with lineNumber := st.lineNumber + 1,
                tags := st.tags ++ [parseTag (trimSpace raw) (st.lineNumber + 1)] } := by
  have hEXT : startsWith (trimSpace raw) cEXT = true := sw_trans _ _ _ h (by decide)
  have hne : trimSpace raw ≠ [] := startsWith_ne_nil _ _ (by decide) h
  have hv : startsWith (trimSpace raw) cVERSION = false :=
    sw_excl _ _ _ (by decide) (by decide) h
  have htd : startsWith (trimSpace raw) cTARGETDURATION = false :=
    sw_excl _ _ _ (by decide) (by decide) h
  have hms : startsWith (trimSpace raw) cMSEQ = false :=
    sw_excl _ _ _ (by decide) (by decide) h
  cases st
  simp [mediaStep, hne, hv, htd, hms, h, hEXT, hd]

/-- A step on a line that is not a `#EXT-X-KEY:` tag preserves
`currentKey` (the carried state is never cleared, only replaced). -/
theorem mediaStep_curKey_eq (st : MediaState) (raw : List Char)
    (h : startsWith (trimSpace raw) cKEY = false) :
    (mediaStep st raw).curKey = st.curKey := by
  rcases mediaStep_classify st raw (trimSpace raw) rfl with
    ⟨_, he⟩ | ⟨_, he⟩ | ⟨_, he⟩ | ⟨_, n, _, he⟩ | ⟨_, _, he⟩ | ⟨_, d, _, he⟩ |
    ⟨_, _, he⟩ | ⟨_, he⟩ | ⟨hs, he⟩ | ⟨_, he⟩ | ⟨_, _, he⟩ | ⟨_, _, _, _, _, _, _, _, he⟩ <;>
    first
      | (rw [hs] at h; simp at h)
      | (rw [he]; cases st.pending <;> rfl)
      | (rw [he])

/-- A step on a line that is not a `#EXT-X-MAP:` tag preserves
`currentMap`. -/
theorem mediaStep_curMap_eq (st : MediaState) (raw : List Char)
    (h : startsWith (trimSpace raw) cMAP = false) :
    (mediaStep st raw).curMap = st.curMap := by
  rcases mediaStep_classify st raw (trimSpace raw) rfl with
    ⟨_, he⟩ | ⟨_, he⟩ | ⟨_, he⟩ | ⟨_, n, _, he⟩ | ⟨_, _, he⟩ | ⟨_, d, _, he⟩ |
    ⟨_, _, he⟩ | ⟨_, he⟩ | ⟨_, he⟩ | ⟨hs, he⟩ | ⟨_, _, he⟩ | ⟨_, _, _, _, _, _, _, _, he⟩ <;>
    first
      | (rw [hs] at h; simp at h)
      | (rw [he]; cases st.pending <;> rfl)
      | (rw [he])

/-- Committed segments are only ever appended: the segments of a run over
a first batch of lines are a prefix of the segments after processing more
lines (later lines never retroactively change committed segments). -/
theorem mediaRun_segments_mono (st : MediaState) (ls1 ls2 : List (List Char)) :
    (mediaRun st ls1).segments <+: (mediaRun st (ls1 ++ ls2)).segments := by
  rw [mediaRun_append]
  generalize mediaRun st ls1 = st1
  induction ls2 generalizing st1 with
  | nil => exact List.prefix_rfl
  | cons l ls ih =>
    have hstep : st1.segments <+: (mediaStep st1 l).segments := by
      rcases mediaStep_segments_extend st1 l with h | ⟨p, _, h⟩
      · rw [h]
      · rw [h]; exact ⟨[{ p with uri := trimSpace l }], rfl⟩
    exact hstep.trans (ih (mediaStep st1 l))

/-- Inversion of a commit: if a step appended a segment, that segment is
the pending segment (committed by value, with only its URI filled in). -/
theorem mediaStep_commit_inv (st : MediaState) (raw : List Char) (seg : Segment)
    (h : (mediaStep st raw).segments = st.segments ++ [seg]) :
    ∃ p, st.pending = some p ∧ seg = { p with uri := trimSpace raw } := by
  rcases mediaStep_segments_extend st raw with he | ⟨p, hp, he⟩
  · rw [he] at h
    have := congrArg List.length h
    simp at this
  · rw [he] at h
    have := List.append_cancel_left h
    simp at this
    exact ⟨p, hp, this.symm⟩

/-- If no line of the input is a `#EXT-X-KEY:` tag, every parsed segment
has `key = none` (and similarly the key state stays `none`). -/
theorem mediaRun_nokey (ls : List (List Char)) (st : MediaState)
    (hl : ∀ l ∈ ls, startsWith (trimSpace l) cKEY = false)
    (hk : st.curKey = none)
    (hp : ∀ p, st.pending = some p → p.key = none)
    (hs : ∀ seg ∈ st.segments, seg.key = none) :
    (∀ seg ∈ (mediaRun st ls).segments, seg.key = none) ∧
      (mediaRun st ls).curKey = none := by
  induction ls generalizing st with
  | nil => exact ⟨hs, hk⟩
  | cons l ls ih =>
    have hkl := hl l (List.mem_cons_self l ls)
    have hk1 : (mediaStep st l).curKey = none := by
      rw [mediaStep_curKey_eq st l hkl]; exact hk
    have hp1 : ∀ p, (mediaStep st l).pending = some p → p.key = none := by
      intro p hpe
      rcases mediaStep_classify st l (trimSpace l) rfl with
        ⟨_, he⟩ | ⟨_, he⟩ | ⟨_, he⟩ | ⟨_, n, _, he⟩ | ⟨_, _, he⟩ | ⟨_, d, _, he⟩ |
        ⟨_, _, he⟩ | ⟨_, he⟩ | ⟨hsx, he⟩ | ⟨_, he⟩ | ⟨_, _, he⟩ | ⟨_, _, _, _, _, _, _, _, he⟩
      all_goals rw [he] at hpe
      case _ => exact hp p hpe                     -- skip
      case _ => exact hp p hpe                     -- version
      case _ => exact hp p hpe                     -- targetduration
      case _ => exact hp p hpe                     -- mseq ok
      case _ => exact hp p hpe                     -- mseq bad
      case _ =>                                    -- extinf ok
        simp at hpe
        rw [← hpe]
        simpa using hk
      case _ => exact hp p hpe                     -- extinf bad
      case _ =>                                    -- byterange
        cases hq : st.pending with
        | some q =>
          rw [hq] at hpe
          simp at hpe
          rw [← hpe]
          simpa using hp q hq
        | none => rw [hq] at hpe; simp at hpe
      case _ => exact hp p hpe                     -- key (cannot happen, but harmless)
      case _ => exact hp p hpe                     -- map
      case _ =>                                    -- commit
        cases hq : st.pending with
        | some q => rw [hq] at hpe; simp at hpe
        | none => rw [hq] at hpe; simp at hpe
      case _ => exact hp p hpe                     -- other tag
    have hs1 : ∀ seg ∈ (mediaStep st l).segments, seg.key = none := by
      intro seg hseg
      rcases mediaStep_segments_extend st l with he | ⟨p, hpe, he⟩
      · rw [he] at hseg; exact hs seg hseg
      · rw [he] at hseg
        rcases List.mem_append.mp hseg with hin | hin
        · exact hs seg hin
        · have : seg = { p with uri := trimSpace l } := by simpa using hin
          rw [this]
          simpa using hp p hpe
    exact ih (mediaStep st l) (fun x hx => hl x (List.mem_cons_of_mem l hx)) hk1 hp1 hs1

theorem sw_false_of_hash (t pat : List Char) (hp : startsWith pat cHASH = true)
    (hh : startsWith t cHASH = false) : startsWith t pat = false := by
  by_contra hb
  rw [Bool.not_eq_false] at hb
  have := sw_trans cHASH pat t hb hp
  rw [hh] at this
  exact Bool.false_ne_true this

/-- Effect of an `#EXT-X-MEDIA-SEQUENCE:` line whose value parses: both
the manifest `Sequence` field and the running counter are set to it. -/
theorem mediaStep_mseq_ok (st : MediaState) (raw : List Char) (n : Int)
    (h : startsWith (trimSpace raw) cMSEQ = true)
    (hn : goAtoi (dropStart (trimSpace raw) cMSEQ) = some n) :
    mediaStep st raw =
      { st with lineNumber := st.lineNumber + 1, mseq := n, seq := n,
                tags := st.tags ++ [parseTag (trimSpace raw) (st.lineNumber + 1)] } := by
  have hEXT : startsWith (trimSpace raw) cEXT = true := sw_trans _ _ _ h (by decide)
  have hne : trimSpace raw ≠ [] := startsWith_ne_nil _ _ (by decide) h
  have hv : startsWith (trimSpace raw) cVERSION = false :=
    sw_excl _ _ _ (by decide) (by decide) h
  have htd : startsWith (trimSpace raw) cTARGETDURATION = false :=
    sw_excl _ _ _ (by decide) (by decide) h
  cases st
  simp [mediaStep, hne, hv, htd, h, hEXT, hn]

/-- Effect of an `#EXT-X-MEDIA-SEQUENCE:` line whose value does not
parse: only the tag record (and line counter) changes. -/
theorem mediaStep_mseq_bad (st : MediaState) (raw : List Char)
    (h : startsWith (trimSpace raw) cMSEQ = true)
    (hn : goAtoi (dropStart (trimSpace raw) cMSEQ) = none) :
    mediaStep st raw =
      { st with lineNumber := st.lineNumber + 1,
                tags := st.tags ++ [parseTag (trimSpace raw) (st.lineNumber + 1)] } := by
  have hEXT : startsWith (trimSpace raw) cEXT = true := sw_trans _ _ _ h (by decide)
  have hne : trimSpace raw ≠ [] := startsWith_ne_nil _ _ (by decide) h
  have hv : startsWith (trimSpace raw) cVERSION = false :=
    sw_excl _ _ _ (by decide) (by decide) h
  have htd : startsWith (trimSpace raw) cTARGETDURATION = false :=
    sw_excl _ _ _ (by decide) (by decide) h
  cases st
  simp [mediaStep, hne, hv, htd, h, hEXT, hn]

/-- Effect of a non-empty line not starting with `#`: it commits the
pending segment (if any) with this line as its URI, else does nothing. -/
theorem mediaStep_commitline (st : MediaState) (raw : List Char)
    (hne : trimSpace raw ≠ []) (hh : startsWith (trimSpace raw) cHASH = false) :
    mediaStep st raw =
      (match st.pending with
       | some p =>
         { st with lineNumber := st.lineNumber + 1,
                   segments := st.segments ++ [{ p with uri := trimSpace raw }],
                   pending := none }
       | none => { st with lineNumber := st.lineNumber + 1 }) := by
  have hEXT : startsWith (trimSpace raw) cEXT = false := sw_not_hash _ hh
  have hv := sw_false_of_hash (trimSpace raw) cVERSION (by decide) hh
  have htd := sw_false_of_hash (trimSpace raw) cTARGETDURATION (by decide) hh
  have hms := sw_false_of_hash (trimSpace raw) cMSEQ (by decide) hh
  have hinf := sw_false_of_hash (trimSpace raw) cEXTINF (by decide) hh
  have hbr := sw_false_of_hash (trimSpace raw) cBYTERANGE (by decide) hh
  have hk := sw_false_of_hash (trimSpace raw) cKEY (by decide) hh
  have hm := sw_false_of_hash (trimSpace raw) cMAP (by decide) hh
  obtain ⟨ver, td, mq, sq, pend, ck, cm, segs, tgs, ln⟩ := st
  cases pend <;> simp [mediaStep, hne, hv, htd, hms, hinf, hbr, hk, hm, hh, hEXT]

/-- A line that is neither a parsed `EXT-X-MEDIA-SEQUENCE`, nor a parsed
`EXTINF`, nor a committing URI line, leaves the sequence bookkeeping
untouched: counter, manifest sequence field, committed segments, presence
of a pending segment and its snapshotted sequence number all survive. -/
theorem mediaStep_neutral (st : MediaState) (raw : List Char)
    (hms : startsWith (trimSpace raw) cMSEQ = true →
      goAtoi (dropStart (trimSpace raw) cMSEQ) = none)
    (hinf : startsWith (trimSpace raw) cEXTINF = true →
      goParseFloat (durOf (trimSpace raw)) = none)
    (hcm : trimSpace raw = [] ∨ startsWith (trimSpace raw) cHASH = true) :
    (mediaStep st raw).seq = st.seq ∧ (mediaStep st raw).mseq = st.mseq ∧
      (mediaStep st raw).segments = st.segments ∧
      (mediaStep st raw).pending.isSome = st.pending.isSome ∧
      (∀ p, (mediaStep st raw).pending = some p →
        ∃ q, st.pending = some q ∧ p.sequence = q.sequence) := by
  rcases mediaStep_classify st raw (trimSpace raw) rfl with
    ⟨_, he⟩ | ⟨_, he⟩ | ⟨_, he⟩ | ⟨hs, n, hn, he⟩ | ⟨_, _, he⟩ | ⟨hs, d, hd, he⟩ |
    ⟨_, _, he⟩ | ⟨_, he⟩ | ⟨_, he⟩ | ⟨_, he⟩ | ⟨h1, h2, he⟩ | ⟨_, _, _, _, _, _, _, _, he⟩
  case _ => rw [he]; exact ⟨rfl, rfl, rfl, rfl, fun p hp => ⟨p, hp, rfl⟩⟩
  case _ => rw [he]; exact ⟨rfl, rfl, rfl, rfl, fun p hp => ⟨p, hp, rfl⟩⟩
  case _ => rw [he]; exact ⟨rfl, rfl, rfl, rfl, fun p hp => ⟨p, hp, rfl⟩⟩
  case _ => rw [hms hs] at hn; cases hn
  case _ => rw [he]; exact ⟨rfl, rfl, rfl, rfl, fun p hp => ⟨p, hp, rfl⟩⟩
  case _ => rw [hinf hs] at hd; cases hd
  case _ => rw [he]; exact ⟨rfl, rfl, rfl, rfl, fun p hp => ⟨p, hp, rfl⟩⟩
  case _ =>
    rw [he]
    refine ⟨rfl, rfl, rfl, by cases st.pending <;> rfl, ?_⟩
    intro p hp
    cases hq : st.pending with
    | some q =>
      rw [hq] at hp
      simp at hp
      exact ⟨q, rfl, by rw [← hp]⟩
    | none => rw [hq] at hp; simp at hp
  case _ => rw [he]; exact ⟨rfl, rfl, rfl, rfl, fun p hp => ⟨p, hp, rfl⟩⟩
  case _ => rw [he]; exact ⟨rfl, rfl, rfl, rfl, fun p hp => ⟨p, hp, rfl⟩⟩
  case _ =>
    rcases hcm with hc | hc
    · exact absurd hc h1
    · rw [hc] at h2; cases h2
  case _ => rw [he]; exact ⟨rfl, rfl, rfl, rfl, fun p hp => ⟨p, hp, rfl⟩⟩

/-- `chainFrom n xs`: the integers `xs` are exactly `n, n+1, n+2, ...`. -/
def chainFrom : Int → List Int → Bool
  | _, [] => true
  | n, x :: xs => (x == n) && chainFrom (n + 1) xs

theorem chainFrom_snoc (xs : List Int) (n x : Int)
    (h : chainFrom n xs = true) (hx : x = n + xs.length) :
    chainFrom n (xs ++ [x]) = true := by
  induction xs generalizing n with
  | nil =>
    simp at hx
    simp [chainFrom, hx]
  | cons y ys ih =>
    simp only [chainFrom, Bool.and_eq_true] at h
    simp only [List.cons_append, chainFrom, Bool.and_eq_true]
    refine ⟨h.1, ih (n + 1) h.2 ?_⟩
    rw [hx]
    simp only [List.length_cons]
    push_cast
    ring

/-- Well-formed media-manifest line sequences for the sequence-numbering
claim: every `EXT-X-MEDIA-SEQUENCE` tag that parses occurs before the
first parsed `#EXTINF:`, and a parsed `#EXTINF:` is never followed by
another parsed `#EXTINF:` before a committing URI line.  `seen` tracks
whether a parsed `#EXTINF:` has occurred, `pend` whether a pending
segment is outstanding. -/
def wfLines : Bool → Bool → List (List Char) → Bool
  | _, _, [] => true
  | seen, pend, l :: ls =>
    if startsWith (trimSpace l) cMSEQ = true then
      match goAtoi (dropStart (trimSpace l) cMSEQ) with
      | some _ => if seen = true then false else wfLines seen pend ls
      | none => wfLines seen pend ls
    else if startsWith (trimSpace l) cEXTINF = true then
      match goParseFloat (durOf (trimSpace l)) with
      | some _ => if pend = true then false else wfLines true true ls
      | none => wfLines seen pend ls
    else if trimSpace l ≠ [] ∧ startsWith (trimSpace l) cHASH = false then
      wfLines seen false ls
    else wfLines seen pend ls

/-- Invariant run lemma for the sequence-numbering claim: over a
well-formed tail, the committed segments' sequence numbers keep forming
the contiguous chain starting at the manifest's media-sequence value. -/
theorem mediaRun_chain (ls : List (List Char)) (seen pend : Bool) (st : MediaState)
    (hwf : wfLines seen pend ls = true)
    (h1 : st.pending.isSome = pend)
    (h2 : chainFrom st.mseq (st.segments.map (fun s => s.sequence)) = true)
    (h3 : st.mseq + st.segments.length = if pend = true then st.seq - 1 else st.seq)
    (h4 : ∀ p, st.pending = some p → p.sequence = st.seq - 1)
    (h5 : seen = false → st.segments = [] ∧ st.seq = st.mseq ∧ pend = false) :
    chainFrom (mediaRun st ls).mseq
      ((mediaRun st ls).segments.map (fun s => s.sequence)) = true := by
  induction ls generalizing seen pend st with
  | nil => exact h2
  | cons l ls ih =>
    simp only [mediaRun]
    by_cases hms : startsWith (trimSpace l) cMSEQ = true
    · cases hA : goAtoi (dropStart (trimSpace l) cMSEQ) with
      | some n =>
        rw [wfLines] at hwf
        rw [if_pos hms, hA] at hwf
        have hseen : seen = false := by
          by_contra hc
          rw [Bool.not_eq_false] at hc
          rw [hc] at hwf
          simp at hwf
        rw [hseen] at hwf
        rw [if_neg (by simp : ¬ ((false : Bool) = true))] at hwf
        obtain ⟨hsg, hsq, hpd⟩ := h5 hseen
        subst hpd
        have hnone : st.pending = none := by
          cases hq : st.pending with
          | some p => rw [hq] at h1; cases h1
          | none => rfl
        rw [mediaStep_mseq_ok st l n hms hA]
        apply ih false false _ hwf
        · rw [hnone]; rfl
        · rw [hsg]; rfl
        · rw [hsg]; simp
        · intro p hp
          rw [hnone] at hp
          cases hp
        · intro _
          exact ⟨hsg, rfl, rfl⟩
      | none =>
        rw [wfLines] at hwf
        rw [if_pos hms, hA] at hwf
        rw [mediaStep_mseq_bad st l hms hA]
        exact ih seen pend _ hwf h1 h2 h3 h4 h5
    · by_cases hinf : startsWith (trimSpace l) cEXTINF = true
      · cases hA : goParseFloat (durOf (trimSpace l)) with
        | some d =>
          rw [wfLines] at hwf
          rw [if_neg hms, if_pos hinf, hA] at hwf
          have hpd : pend = false := by
            by_contra hc
            rw [Bool.not_eq_false] at hc
            rw [hc] at hwf
            simp at hwf
          subst hpd
          rw [if_neg (by simp : ¬ ((false : Bool) = true))] at hwf
          have h3x : st.mseq + (st.segments.length : Int) = st.seq := by simpa using h3
          rw [mediaStep_extinf_ok st l d hinf hA]
          apply ih true true _ hwf
          · rfl
          · exact h2
          · show st.mseq + (st.segments.length : Int) =
              if (true : Bool) = true then st.seq + 1 - 1 else st.seq + 1
            rw [if_pos rfl]
            omega
          · intro p hp
            simp only [Option.some.injEq] at hp
            rw [← hp]
            show st.seq = st.seq + 1 - 1
            omega
          · intro hc
            cases hc
        | none =>
          rw [wfLines] at hwf
          rw [if_neg hms, if_pos hinf, hA] at hwf
          rw [mediaStep_extinf_bad st l hinf hA]
          exact ih seen pend _ hwf h1 h2 h3 h4 h5
      · by_cases hcm : (trimSpace l ≠ [] ∧ startsWith (trimSpace l) cHASH = false)
        · have hwf2 : wfLines seen false ls = true := by
            rw [wfLines] at hwf
            rw [if_neg hms, if_neg hinf, if_pos hcm] at hwf
            exact hwf
          rw [mediaStep_commitline st l hcm.1 hcm.2]
          cases hq : st.pending with
          | some p =>
            have hpd : pend = true := by rw [← h1, hq]; rfl
            subst hpd
            have hps := h4 p hq
            have h3x : st.mseq + (st.segments.length : Int) = st.seq - 1 := by
              simpa using h3
            apply ih seen false _ hwf2
            · rfl
            · show chainFrom st.mseq
                ((st.segments ++ [{ p with uri := trimSpace l }]).map
                  (fun (s : Segment) => s.sequence)) = true
              rw [List.map_append, List.map_cons, List.map_nil]
              apply chainFrom_snoc _ _ _ h2
              rw [List.length_map]
              show p.sequence = st.mseq + (st.segments.length : Int)
              omega
            · show st.mseq + ((st.segments ++ [{ p with uri := trimSpace l }]).length : Int) =
                if (false : Bool) = true then st.seq - 1 else st.seq
              rw [if_neg (by simp : ¬ ((false : Bool) = true)), List.length_append]
              push_cast
              simp only [List.length_cons, List.length_nil]
              push_cast
              omega
            · intro q hql
              simp at hql
            · intro hs0
              obtain ⟨_, _, hcf⟩ := h5 hs0
              cases hcf
          | none =>
            have hpd : pend = false := by rw [← h1, hq]; rfl
            subst hpd
            apply ih seen false _ hwf2
            · rfl
            · exact h2
            · exact h3
            · intro q hql
              simp at hql
            · intro hs0
              obtain ⟨a, b, _⟩ := h5 hs0
              exact ⟨a, b, rfl⟩
        · have hwf2 : wfLines seen pend ls = true := by
            rw [wfLines] at hwf
            rw [if_neg hms, if_neg hinf, if_neg hcm] at hwf
            exact hwf
          have hcm2 : trimSpace l = [] ∨ startsWith (trimSpace l) cHASH = true := by
            by_cases hte : trimSpace l = []
            · exact Or.inl hte
            · right
              by_contra hc
              rw [Bool.not_eq_true] at hc
              exact hcm ⟨hte, hc⟩
          obtain ⟨e1, e2, e3, e4, e5⟩ :=
            mediaStep_neutral st l (fun h => absurd h hms) (fun h => absurd h hinf) hcm2
          apply ih seen pend _ hwf2
          · rw [e4]; exact h1
          · rw [e2, e3]; exact h2
          · rw [e1, e2, e3]; exact h3
          · intro p hp
            obtain ⟨q, hq, hqs⟩ := e5 p hp
            rw [e1, hqs]
            exact h4 q hq
          · intro hs0
            obtain ⟨a, b, c⟩ := h5 hs0
            exact ⟨by rw [e3]; exact a, by rw [e1, e2]; exact b, c⟩

/-- Effect of an `#EXT-X-STREAM-INF:` line: the pending variant is
(re)placed by a fresh one built from the parsed attributes — an earlier
uncommitted pending variant is silently lost — and `variants` itself is
untouched. -/
theorem masterStep_streaminf (st : MasterState) (raw : List Char)
    (h : startsWith (trimSpace raw) cSTREAMINF = true) :
    masterStep st raw =
      { st with lineNumber := st.lineNumber + 1,
                pending := some (variantOfAttrs (parseAttributes (dropStart (trimSpace raw) cSTREAMINF))),
                tags := st.tags ++ [parseTag (trimSpace raw) (st.lineNumber + 1)] } := by
  have hEXT : startsWith (trimSpace raw) cEXT = true := sw_trans _ _ _ h (by decide)
  have hne : trimSpace raw ≠ [] := startsWith_ne_nil _ _ (by decide) h
  have hv : startsWith (trimSpace raw) cVERSION = false :=
    sw_excl _ _ _ (by decide) (by decide) h
  cases st
  simp [masterStep, hne, hv, h, hEXT]

/-- A run over lines that are all blank or `#`-prefixed commits nothing:
`variants` is unchanged (a dangling pending variant is discarded at end
of input). -/
theorem masterRun_nocommit (ls : List (List Char)) (st : MasterState)
    (hl : ∀ l ∈ ls, trimSpace l = [] ∨ startsWith (trimSpace l) cHASH = true) :
    (masterRun st ls).variants = st.variants := by
  induction ls generalizing st with
  | nil => rfl
  | cons l ls ih =>
    have hv : (masterStep st l).variants = st.variants := by
      rcases masterStep_classify st l (trimSpace l) rfl with
        ⟨_, he⟩ | ⟨_, he⟩ | ⟨_, he⟩ | ⟨h1, h2, he⟩ | ⟨_, _, _, he⟩
      · rw [he]
      · rw [he]
      · rw [he]
      · rcases hl l (List.mem_cons_self l ls) with hc | hc
        · exact absurd hc h1
        · rw [hc] at h2; cases h2
      · rw [he]
    simp only [masterRun]
    rw [ih (masterStep st l) (fun x hx => hl x (List.mem_cons_of_mem l hx)), hv]

/-- Media analogue of `masterRun_nocommit`: without a committing URI
line, `segments` is unchanged (a dangling pending segment is discarded). -/
theorem mediaRun_nocommit (ls : List (List Char)) (st : MediaState)
    (hl : ∀ l ∈ ls, trimSpace l = [] ∨ startsWith (trimSpace l) cHASH = true) :
    (mediaRun st ls).segments = st.segments := by
  induction ls generalizing st with
  | nil => rfl
  | cons l ls ih =>
    have hv : (mediaStep st l).segments = st.segments := by
      rcases mediaStep_classify st l (trimSpace l) rfl with
        ⟨_, he⟩ | ⟨_, he⟩ | ⟨_, he⟩ | ⟨_, n, _, he⟩ | ⟨_, _, he⟩ | ⟨_, d, _, he⟩ |
        ⟨_, _, he⟩ | ⟨_, he⟩ | ⟨_, he⟩ | ⟨_, he⟩ | ⟨h1, h2, he⟩ | ⟨_, _, _, _, _, _, _, _, he⟩
      all_goals try (rw [he])
      rcases hl l (List.mem_cons_self l ls) with hc | hc
      · exact absurd hc h1
      · rw [hc] at h2; cases h2
    simp only [mediaRun]
    rw [ih (mediaStep st l) (fun x hx => hl x (List.mem_cons_of_mem l hx)), hv]

/-- The promoted `bandwidth` field: integer parse of the `BANDWIDTH`
attribute, `0` on absence or parse failure. -/
theorem variantOfAttrs_bandwidth (a : AttrMap) :
    (variantOfAttrs a).bandwidth =
      (match lookupAttr a aBANDWIDTH with
       | some b => (goAtoi b).getD 0
       | none => 0) := by
  cases hb : lookupAttr a aBANDWIDTH with
  | none =>
    cases hr : lookupAttr a aRESOLUTION <;> cases hc : lookupAttr a aCODECS <;>
      simp [variantOfAttrs, hb, hr, hc]
  | some b =>
    cases hA : goAtoi b <;> cases hr : lookupAttr a aRESOLUTION <;>
      cases hc : lookupAttr a aCODECS <;> simp [variantOfAttrs, hb, hA, hr, hc]

/-! ### Trimming -/

theorem dropWhile_dropWhile (p : Char → Bool) (l : List Char) :
    (l.dropWhile p).dropWhile p = l.dropWhile p := by
  induction l with
  | nil => rfl
  | cons c cs ih =>
    by_cases hc : p c
    · simp [List.dropWhile_cons, hc, ih]
    · simp [List.dropWhile_cons, hc]

theorem head_dropWhile_false (p : Char → Bool) (l : List Char) (c : Char)
    (h : (l.dropWhile p).head? = some c) : p c = false := by
  induction l with
  | nil => simp at h
  | cons x xs ih =>
    by_cases hx : p x
    · rw [List.dropWhile_cons, if_pos hx] at h
      exact ih h
    · rw [List.dropWhile_cons, if_neg hx] at h
      simp only [List.head?_cons, Option.some.injEq] at h
      subst h
      cases hpx : p x
      · rfl
      · exact absurd hpx hx

theorem revDropRev_isPrefix (p : Char → Bool) (l : List Char) :
    (l.reverse.dropWhile p).reverse <+: l := by
  refine ⟨(l.reverse.takeWhile p).reverse, ?_⟩
  conv_rhs => rw [← List.reverse_reverse l, ← List.takeWhile_append_dropWhile (p := p) (l := l.reverse)]
  rw [List.reverse_append]

theorem trimSpace_head (s : List Char) (c : Char)
    (h : (trimSpace s).head? = some c) : isSpaceChar c = false := by
  obtain ⟨t, ht⟩ := revDropRev_isPrefix isSpaceChar (s.dropWhile isSpaceChar)
  have hL : (s.dropWhile isSpaceChar).head? = some c := by
    unfold trimSpace at h
    rw [← ht]
    cases hM : ((s.dropWhile isSpaceChar).reverse.dropWhile isSpaceChar).reverse with
    | nil => rw [hM] at h; simp at h
    | cons y ys =>
      rw [hM] at h
      simp only [List.head?_cons, Option.some.injEq] at h
      simp [h]
  exact head_dropWhile_false isSpaceChar s c hL

theorem dropWhile_eq_self_of_head (p : Char → Bool) (l : List Char)
    (h : ∀ c, l.head? = some c → p c = false) : l.dropWhile p = l := by
  cases l with
  | nil => rfl
  | cons c cs =>
    have := h c rfl
    simp [List.dropWhile_cons, this]

/-- `strings.TrimSpace` is idempotent. -/
theorem trimSpace_idem (s : List Char) : trimSpace (trimSpace s) = trimSpace s := by
  have h1 : (trimSpace s).dropWhile isSpaceChar = trimSpace s :=
    dropWhile_eq_self_of_head _ _ (fun c hc => trimSpace_head s c hc)
  show (((trimSpace s).dropWhile isSpaceChar).reverse.dropWhile isSpaceChar).reverse = trimSpace s
  rw [h1]
  have h2 : (trimSpace s).reverse = (s.dropWhile isSpaceChar).reverse.dropWhile isSpaceChar := by
    unfold trimSpace
    rw [List.reverse_reverse]
  rw [h2, dropWhile_dropWhile, ← h2, List.reverse_reverse]

/-! ### Tokenizer and attribute-map lemmas -/

/-- Every segment emitted by the renderer's `splitAttributes` is trimmed. -/
theorem views_splitAttrsAux_trimmed (s : List Char) (inQ : Bool) (cur : List Char) :
    ∀ part ∈ Views.splitAttrsAux s inQ cur, trimSpace part = part := by
  induction s generalizing inQ cur with
  | nil =>
    intro part hp
    simp only [Views.splitAttrsAux] at hp
    by_cases hc : cur = []
    · rw [if_pos hc] at hp; simp at hp
    · rw [if_neg hc] at hp
      simp at hp
      rw [hp]
      exact trimSpace_idem cur
  | cons c cs ih =>
    intro part hp
    simp only [Views.splitAttrsAux] at hp
    by_cases h1 : c = '"'
    · rw [if_pos h1] at hp
      exact ih _ _ part hp
    · rw [if_neg h1] at hp
      by_cases h2 : c = ','
      · rw [if_pos h2] at hp
        by_cases h3 : inQ
        · rw [if_pos h3] at hp
          exact ih _ _ part hp
        · rw [if_neg h3] at hp
          by_cases h4 : cur = []
          · rw [if_pos h4] at hp
            exact ih _ _ part hp
          · rw [if_neg h4] at hp
            rcases List.mem_cons.mp hp with he | he
            · rw [he]; exact trimSpace_idem cur
            · exact ih _ _ part he
      · rw [if_neg h2] at hp
        exact ih _ _ part hp

/-- The parser's `splitAttributes` never emits an empty segment. -/
theorem hls_splitAttrsAux_ne_nil (s : List Char) (inQ : Bool) (cur : List Char) :
    ∀ part ∈ HLS.splitAttrsAux s inQ cur, part ≠ [] := by
  induction s generalizing inQ cur with
  | nil =>
    intro part hp
    simp only [HLS.splitAttrsAux] at hp
    by_cases hc : cur = []
    · rw [if_pos hc] at hp; simp at hp
    · rw [if_neg hc] at hp
      simp at hp
      rw [hp]
      exact hc
  | cons c cs ih =>
    intro part hp
    simp only [HLS.splitAttrsAux] at hp
    by_cases h1 : c = '"'
    · rw [if_pos h1] at hp
      exact ih _ _ part hp
    · rw [if_neg h1] at hp
      by_cases h2 : c = ','
      · rw [if_pos h2] at hp
        by_cases h3 : inQ
        · rw [if_pos h3] at hp
          exact ih _ _ part hp
        · rw [if_neg h3] at hp
          by_cases h4 : cur = []
          · rw [if_pos h4] at hp
            exact ih _ _ part hp
          · rw [if_neg h4] at hp
            rcases List.mem_cons.mp hp with he | he
            · rw [he]; exact h4
            · exact ih _ _ part he
      · rw [if_neg h2] at hp
        exact ih _ _ part hp

/-- Segments without an `=` contribute nothing to the attribute map. -/
theorem parseAttrsAux_filter (parts : List (List Char)) (m : AttrMap) :
    parseAttrsAux (parts.filter (fun p => (indexOfChar p '=').isSome)) m =
      parseAttrsAux parts m := by
  induction parts generalizing m with
  | nil => rfl
  | cons p ps ih =>
    cases h : indexOfChar p '=' with
    | none =>
      rw [List.filter_cons]
      simp only [h, Option.isSome_none, Bool.false_eq_true, if_false]
      rw [ih]
      simp only [parseAttrsAux, h]
    | some i =>
      rw [List.filter_cons]
      simp only [h, Option.isSome_some, if_true]
      simp only [parseAttrsAux, h]
      exact ih _

/-- Go map semantics: a later duplicate key overwrites the earlier value. -/
theorem lookupAttr_insertAttr (m : AttrMap) (k v : List Char) :
    lookupAttr (insertAttr m k v) k = some v := by
  induction m with
  | nil => simp [insertAttr, lookupAttr]
  | cons kv rest ih =>
    obtain ⟨k0, v0⟩ := kv
    by_cases hk : k0 = k
    · simp [insertAttr, hk, lookupAttr]
    · simp [insertAttr, hk, lookupAttr, ih]

/-! ### Navigable-item extractor -/

def nthStr : List (List Char) → Nat → Option (List Char)
  | [], _ => none
  | x :: _, 0 => some x
  | _ :: xs, n + 1 => nthStr xs n

/-- The per-line mapping rule of the navigable-item claim: a non-empty
line not starting with `#` maps to its trimmed text; a line starting with
`#EXT-X-I-FRAME-STREAM-INF:` or `#EXT-X-MEDIA:` maps to its extracted,
non-empty `URI=` attribute value; every other line is absent. -/
def navLineTarget (raw : List Char) : Option (List Char) :=
  let t := trimSpace raw
  if t = [] then none
  else if startsWith t cHASH = false then some t
  else if startsWith t Views.cIFRAMETag = true ∨ startsWith t Views.cMEDIATag = true then
    (if Views.extractAttributeValue t aURI = [] then none
     else some (Views.extractAttributeValue t aURI))
  else none

theorem extractURIFromTag_eq (t : List Char) :
    Views.extractURIFromTag t =
      (if startsWith t Views.cIFRAMETag = true ∨ startsWith t Views.cMEDIATag = true
       then Views.extractAttributeValue t aURI else []) := by
  unfold Views.extractURIFromTag
  by_cases h1 : startsWith t Views.cIFRAMETag = true
  · simp [h1]
  · by_cases h2 : startsWith t Views.cMEDIATag = true <;> simp [h1, h2]

theorem lookupNav_navAux_lt (ls : List (List Char)) (n0 m : Nat) (h : m < n0) :
    Views.lookupNav (Views.navAux n0 ls) m = none := by
  induction ls generalizing n0 with
  | nil => rfl
  | cons l ls ih =>
    simp only [Views.navAux]
    split_ifs with h0 h1 h2
    · exact ih (n0 + 1) (Nat.lt_succ_of_lt h)
    · simp only [Views.lookupNav]
      rw [if_neg (by omega : ¬ n0 = m)]
      exact ih (n0 + 1) (Nat.lt_succ_of_lt h)
    · exact ih (n0 + 1) (Nat.lt_succ_of_lt h)
    · simp only [Views.lookupNav]
      rw [if_neg (by omega : ¬ n0 = m)]
      exact ih (n0 + 1) (Nat.lt_succ_of_lt h)

/-- The navigable-item map at line `n0 + i` is exactly `navLineTarget` of
the `i`-th line handed to the loop (line numbers are unique, so lookup in
the modelled map is unambiguous). -/
theorem lookupNav_navAux (ls : List (List Char)) (n0 i : Nat) :
    Views.lookupNav (Views.navAux n0 ls) (n0 + i) = (nthStr ls i).bind navLineTarget := by
  induction ls generalizing n0 i with
  | nil => rfl
  | cons l ls ih =>
    cases i with
    | zero =>
      show Views.lookupNav (Views.navAux n0 (l :: ls)) (n0 + 0) = navLineTarget l
      rw [Nat.add_zero]
      by_cases h0 : trimSpace l = []
      · simp only [Views.navAux]
        rw [if_pos h0]
        rw [lookupNav_navAux_lt ls (n0 + 1) n0 (Nat.lt_succ_self n0)]
        simp [navLineTarget, h0]
      · by_cases h1 : startsWith (trimSpace l) cHASH = false
        · simp only [Views.navAux]
          rw [if_neg h0, if_pos h1]
          simp only [Views.lookupNav, if_pos rfl]
          simp [navLineTarget, h0, h1]
        · have h1' : startsWith (trimSpace l) cHASH = true := by
            rwa [Bool.not_eq_false] at h1
          by_cases hu : Views.extractURIFromTag (trimSpace l) = []
          · simp only [Views.navAux]
            rw [if_neg h0, if_neg h1, if_pos hu]
            rw [lookupNav_navAux_lt ls (n0 + 1) n0 (Nat.lt_succ_self n0)]
            rw [extractURIFromTag_eq] at hu
            by_cases hp : (startsWith (trimSpace l) Views.cIFRAMETag = true ∨
                startsWith (trimSpace l) Views.cMEDIATag = true)
            · rw [if_pos hp] at hu
              simp [navLineTarget, h0, h1', hp, hu]
            · simp [navLineTarget, h0, h1', hp]
          · simp only [Views.navAux]
            rw [if_neg h0, if_neg h1, if_neg hu]
            simp only [Views.lookupNav, if_pos rfl]
            rw [extractURIFromTag_eq] at hu ⊢
            by_cases hp : (startsWith (trimSpace l) Views.cIFRAMETag = true ∨
                startsWith (trimSpace l) Views.cMEDIATag = true)
            · rw [if_pos hp] at hu ⊢
              simp [navLineTarget, h0, h1', hp, hu]
            · rw [if_neg hp] at hu
              exact absurd rfl hu
    | succ i =>
      have harith : n0 + (i + 1) = (n0 + 1) + i := by omega
      show Views.lookupNav (Views.navAux n0 (l :: ls)) (n0 + (i + 1)) =
        (nthStr ls i).bind navLineTarget
      simp only [Views.navAux]
      split_ifs with h0 h1 h2
      · rw [harith]; exact ih (n0 + 1) i
      · simp only [Views.lookupNav]
        rw [if_neg (by omega : ¬ n0 = n0 + (i + 1))]
        rw [harith]; exact ih (n0 + 1) i
      · rw [harith]; exact ih (n0 + 1) i
      · simp only [Views.lookupNav]
        rw [if_neg (by omega : ¬ n0 = n0 + (i + 1))]
        rw [harith]; exact ih (n0 + 1) i

theorem indexOfChar_not_mem (u : List Char) (c : Char) (h : c ∉ u) :
    indexOfChar u c = none := by
  induction u with
  | nil => rfl
  | cons x xs ih =>
    have hx : ¬ x = c := fun he => h (he ▸ List.mem_cons_self x xs)
    simp [indexOfChar, hx, ih (fun hm => h (List.mem_cons_of_mem x hm))]

theorem indexOfChar_append_self (u post : List Char) (c : Char) (h : c ∉ u) :
    indexOfChar (u ++ c :: post) c = some u.length := by
  induction u with
  | nil => simp [indexOfChar]
  | cons x xs ih =>
    have hx : ¬ x = c := fun he => h (he ▸ List.mem_cons_self x xs)
    simp [indexOfChar, hx, ih (fun hm => h (List.mem_cons_of_mem x hm))]

/-- Quoted `URI=` extraction: with the first `URI=` occurrence at `k` and
a `"` right after it, the value runs to the next `"` (no escapes, first
match wins); the rest of the line is ignored. -/
theorem extractAttributeValue_quoted (line u post : List Char) (k : Nat)
    (hidx : indexOfSub line ("URI=".toList) = some k)
    (hdrop : line.drop (k + 4) = '"' :: (u ++ '"' :: post))
    (hu : '"' ∉ u) :
    Views.extractAttributeValue line aURI = u := by
  unfold Views.extractAttributeValue
  have hpre : aURI ++ "=".toList = "URI=".toList := by decide
  have hlen : ("URI=".toList).length = 4 := by decide
  simp only [hpre, hidx, hlen, hdrop, Views.readAttrValue, if_true]
  rw [indexOfChar_append_self u post '"' hu]
  exact List.take_left u ('"' :: post)

/-- Unquoted `URI=` extraction ended by the next comma. -/
theorem extractAttributeValue_unquoted_comma (line u post : List Char) (k : Nat)
    (hidx : indexOfSub line ("URI=".toList) = some k)
    (hdrop : line.drop (k + 4) = u ++ ',' :: post)
    (hq : startsWith u ("\"".toList) = false)
    (hu : ',' ∉ u) :
    Views.extractAttributeValue line aURI = u := by
  unfold Views.extractAttributeValue
  have hpre : aURI ++ "=".toList = "URI=".toList := by decide
  have hlen : ("URI=".toList).length = 4 := by decide
  cases u with
  | nil =>
    simp only [hpre, hidx, hlen, hdrop, List.nil_append, Views.readAttrValue]
    rw [if_neg (by decide : ¬ (',' = '"'))]
    have h0 : indexOfChar (',' :: post) ',' = some 0 := by simp [indexOfChar]
    rw [h0]
    rfl
  | cons c cs =>
    have hc : ¬ (c = '"') := by
      intro he
      rw [he] at hq
      simp [startsWith] at hq
    simp only [hpre, hidx, hlen, hdrop, List.cons_append, Views.readAttrValue]
    rw [if_neg hc]
    have hmatch : indexOfChar (c :: (cs ++ ',' :: post)) ',' = some (c :: cs).length := by
      have h2 : (c :: (cs ++ ',' :: post)) = (c :: cs) ++ ',' :: post := by simp
      rw [h2]
      exact indexOfChar_append_self (c :: cs) post ',' hu
    rw [hmatch]
    have h2 : (c :: (cs ++ ',' :: post)) = (c :: cs) ++ ',' :: post := by simp
    rw [h2]
    exact List.take_left (c :: cs) (',' :: post)

/-- Unquoted `URI=` extraction running to end of line. -/
theorem extractAttributeValue_unquoted_eol (line u : List Char) (k : Nat)
    (hidx : indexOfSub line ("URI=".toList) = some k)
    (hdrop : line.drop (k + 4) = u)
    (hq : startsWith u ("\"".toList) = false)
    (hu : ',' ∉ u) :
    Views.extractAttributeValue line aURI = u := by
  unfold Views.extractAttributeValue
  have hpre : aURI ++ "=".toList = "URI=".toList := by decide
  have hlen : ("URI=".toList).length = 4 := by decide
  cases u with
  | nil => simp only [hpre, hidx, hlen, hdrop, Views.readAttrValue]
  | cons c cs =>
    have hc : ¬ (c = '"') := by
      intro he
      rw [he] at hq
      simp [startsWith] at hq
    simp only [hpre, hidx, hlen, hdrop, Views.readAttrValue]
    rw [if_neg hc]
    rw [indexOfChar_not_mem (c :: cs) ',' hu]

/-! ### Claim theorems -/

/-- Claim C1, counterexample to the claim as stated: in
`#EXTINF:4.0,` / `#EXT-X-KEY:METHOD=AES-128,URI="k"` / `seg1.ts`, the only
segment is committed by the `seg1.ts` line, *after* the `EXT-X-KEY` tag
(whose parsed value is the final key state shown), yet its `key` is
`none`: the snapshot is taken at the `#EXTINF:` tag, not at the moment
the segment is committed, so a segment committed after an `EXT-X-KEY` tag
need not carry that tag's Key. -/
theorem c1_counterexample :
    (HLS.parseMediaManifest
        ("#EXTINF:4.0,\n#EXT-X-KEY:METHOD=AES-128,URI=\"k\"\nseg1.ts".toList)).segments.map
      HLS.Segment.key = [none] ∧
    (HLS.parseMediaManifest
        ("#EXTINF:4.0,\n#EXT-X-KEY:METHOD=AES-128,URI=\"k\"\nseg1.ts".toList)).curKey =
      some { method := "AES-128".toList, uri := "k".toList, iv := [], keyFormat := [] } := by
  decide

/-- Claim C1 (amended): a committed segment's `key`/`map` are the key/map
state snapshotted by value at its `#EXTINF:` tag (not at the URI line that
commits it).  Conjuncts: key state is preserved by every non-`EXT-X-KEY`
line and replaced by the parsed value at an `EXT-X-KEY:` line (never
cleared, only replaced); same for the map state; the pending segment
created at a parsed `#EXTINF:` snapshots the current key/map; a committed
segment is the pending one by value; committed segments are only appended
(later tags never retroactively change them); and when no `EXT-X-KEY:`
line occurs at all, every parsed segment has `key = none`. -/
theorem c1_snapshot_amended :
    (∀ (st : HLS.MediaState) (raw : List Char),
      startsWith (trimSpace raw) HLS.cKEY = false →
      (HLS.mediaStep st raw).curKey = st.curKey) ∧
    (∀ (st : HLS.MediaState) (raw : List Char),
      startsWith (trimSpace raw) HLS.cKEY = true →
      (HLS.mediaStep st raw).curKey =
        some (HLS.keyOfAttrs (HLS.parseAttributes (dropStart (trimSpace raw) HLS.cKEY)))) ∧
    (∀ (st : HLS.MediaState) (raw : List Char),
      startsWith (trimSpace raw) HLS.cMAP = false →
      (HLS.mediaStep st raw).curMap = st.curMap) ∧
    (∀ (st : HLS.MediaState) (raw : List Char),
      startsWith (trimSpace raw) HLS.cMAP = true →
      (HLS.mediaStep st raw).curMap =
        some (HLS.mapOfAttrs (HLS.parseAttributes (dropStart (trimSpace raw) HLS.cMAP)))) ∧
    (∀ (st : HLS.MediaState) (raw : List Char) (d : Rat),
      startsWith (trimSpace raw) HLS.cEXTINF = true →
      goParseFloat (HLS.durOf (trimSpace raw)) = some d →
      (HLS.mediaStep st raw).pending =
        some { uri := [], duration := d, sequence := st.seq, byteRange := [],
               key := st.curKey, map := st.curMap }) ∧
    (∀ (st : HLS.MediaState) (raw : List Char) (seg : HLS.Segment),
      (HLS.mediaStep st raw).segments = st.segments ++ [seg] →
      ∃ p, st.pending = some p ∧ seg.key = p.key ∧ seg.map = p.map) ∧
    (∀ (st : HLS.MediaState) (ls1 ls2 : List (List Char)),
      (HLS.mediaRun st ls1).segments <+: (HLS.mediaRun st (ls1 ++ ls2)).segments) ∧
    (∀ content : List Char,
      (∀ l ∈ scanLines content, startsWith (trimSpace l) HLS.cKEY = false) →
      ∀ seg ∈ (HLS.parseMediaManifest content).segments, seg.key = none) := by
  refine ⟨mediaStep_curKey_eq, ?_, mediaStep_curMap_eq, ?_, ?_, ?_, mediaRun_segments_mono, ?_⟩
  · intro st raw h
    rw [mediaStep_keyline st raw h]
  · intro st raw h
    rw [mediaStep_mapline st raw h]
  · intro st raw d h hd
    rw [mediaStep_extinf_ok st raw d h hd]
  · intro st raw seg h
    obtain ⟨p, hp, he⟩ := mediaStep_commit_inv st raw seg h
    exact ⟨p, hp, by rw [he], by rw [he]⟩
  · intro content hl
    exact (mediaRun_nokey (scanLines content) HLS.initMediaState hl rfl
      (fun p hp => by simp [HLS.initMediaState] at hp)
      (fun seg hs => by simp [HLS.initMediaState] at hs)).1

/-- Witness for C1 (amended), instantiating the `EXT-X-KEY` replacement
conjunct at a concrete tag line. -/
theorem c1_snapshot_amended_witness :
    (HLS.mediaStep HLS.initMediaState ("#EXT-X-KEY:METHOD=AES-128,URI=\"k\"".toList)).curKey =
      some { method := "AES-128".toList, uri := "k".toList, iv := [], keyFormat := [] } := by
  rw [c1_snapshot_amended.2.1 HLS.initMediaState ("#EXT-X-KEY:METHOD=AES-128,URI=\"k\"".toList)
    (by decide)]
  decide

/-- Claim C2, counterexample to the claim as stated: a text containing
only an `#EXT-X-I-FRAME-STREAM-INF` tag plus a URI line is classified as
Master, but its `variants` sequence is empty (not populated): the master
builder only creates variants from `#EXT-X-STREAM-INF:` tags. -/
theorem c2_counterexample :
    containsSub ("#EXT-X-I-FRAME-STREAM-INF:URI=\"a\"\nx.m3u8".toList) HLS.cIFRAMESub = true ∧
    (HLS.parseContent ("#EXT-X-I-FRAME-STREAM-INF:URI=\"a\"\nx.m3u8".toList)).mtype =
      HLS.ManifestType.master ∧
    (HLS.parseContent ("#EXT-X-I-FRAME-STREAM-INF:URI=\"a\"\nx.m3u8".toList)).variants = [] := by
  decide

/-- Claim C2 (amended): a text containing the substring
`#EXT-X-STREAM-INF` or `#EXT-X-I-FRAME-STREAM-INF` anywhere (unanchored,
even inside a comment line) parses as Master with empty `segments` (its
`variants` may be empty); every other text parses as Media with empty
`variants`. -/
theorem c2_classification_amended (content : List Char) :
    ((containsSub content HLS.cSTREAMINFSub = true ∨
        containsSub content HLS.cIFRAMESub = true) →
      (HLS.parseContent content).mtype = HLS.ManifestType.master ∧
      (HLS.parseContent content).segments = []) ∧
    (containsSub content HLS.cSTREAMINFSub = false →
      containsSub content HLS.cIFRAMESub = false →
      (HLS.parseContent content).mtype = HLS.ManifestType.media ∧
      (HLS.parseContent content).variants = []) := by
  constructor
  · intro h
    have hm : HLS.isMasterManifest content = true := by
      rcases h with h | h <;> simp [HLS.isMasterManifest, h]
    constructor <;> simp [HLS.parseContent, hm]
  · intro h1 h2
    have hm : HLS.isMasterManifest content = false := by
      simp [HLS.isMasterManifest, h1, h2]
    constructor <;> simp [HLS.parseContent, hm]

/-- Witness for C2 (amended): the substring occurring only inside a
comment line still forces Master classification. -/
theorem c2_classification_amended_witness :
    (HLS.parseContent ("# see #EXT-X-STREAM-INF\n#EXTINF:1,\nx.ts".toList)).mtype =
      HLS.ManifestType.master ∧
    (HLS.parseContent ("# see #EXT-X-STREAM-INF\n#EXTINF:1,\nx.ts".toList)).segments = [] :=
  (c2_classification_amended ("# see #EXT-X-STREAM-INF\n#EXTINF:1,\nx.ts".toList)).1
    (Or.inl (by decide))

/-- Claim C3, counterexample to the claim as stated: with two consecutive
`#EXTINF:` tags (the first pending segment is overwritten before being
committed, but the counter was already incremented), the single committed
segment has sequence 1 while the manifest's mediaSequence is 0 — the
first segment's sequence does not equal `mediaSequence`. -/
theorem c3_counterexample :
    (HLS.parseMediaManifest ("#EXTINF:1,\n#EXTINF:2,\na.ts".toList)).segments.map
      HLS.Segment.sequence = [1] ∧
    (HLS.parseMediaManifest ("#EXTINF:1,\n#EXTINF:2,\na.ts".toList)).mseq = 0 := by
  decide

/-- Claim C3 (amended): a segment's sequence is the running counter at
its `#EXTINF:` tag; the counter starts at 0, is overwritten together with
the manifest's `Sequence` field by each parsed `EXT-X-MEDIA-SEQUENCE`
tag, and increments at each parsed `#EXTINF:`.  Provided each parsed
`#EXTINF:` is committed by a URI line before the next one and
`EXT-X-MEDIA-SEQUENCE` appears only before the first parsed `#EXTINF:`
(`wfLines`), the committed sequences are contiguous from the manifest's
`mediaSequence` (default 0); in particular `EXT-X-MEDIA-SEQUENCE:5` with
three committed `EXTINF` entries yields sequences `[5, 6, 7]`. -/
theorem c3_sequence_amended :
    (∀ content : List Char, wfLines false false (scanLines content) = true →
      chainFrom (HLS.parseMediaManifest content).mseq
        ((HLS.parseMediaManifest content).segments.map (fun s => s.sequence)) = true) ∧
    (∀ (st : HLS.MediaState) (raw : List Char) (n : Int),
      startsWith (trimSpace raw) HLS.cMSEQ = true →
      goAtoi (dropStart (trimSpace raw) HLS.cMSEQ) = some n →
      (HLS.mediaStep st raw).seq = n ∧ (HLS.mediaStep st raw).mseq = n) ∧
    (∀ (st : HLS.MediaState) (raw : List Char) (d : Rat),
      startsWith (trimSpace raw) HLS.cEXTINF = true →
      goParseFloat (HLS.durOf (trimSpace raw)) = some d →
      (HLS.mediaStep st raw).pending =
        some { uri := [], duration := d, sequence := st.seq, byteRange := [],
               key := st.curKey, map := st.curMap } ∧
      (HLS.mediaStep st raw).seq = st.seq + 1) ∧
    ((HLS.parseMediaManifest
        ("#EXT-X-MEDIA-SEQUENCE:5\n#EXTINF:4.0,\na.ts\n#EXTINF:4.0,\nb.ts\n#EXTINF:4.0,\nc.ts".toList)).segments.map
      (fun s => s.sequence) = [5, 6, 7] ∧
     (HLS.parseMediaManifest
        ("#EXT-X-MEDIA-SEQUENCE:5\n#EXTINF:4.0,\na.ts\n#EXTINF:4.0,\nb.ts\n#EXTINF:4.0,\nc.ts".toList)).mseq = 5) := by
  refine ⟨?_, ?_, ?_, by decide⟩
  · intro content hwf
    exact mediaRun_chain (scanLines content) false false HLS.initMediaState hwf rfl rfl
      (by simp [HLS.initMediaState])
      (fun p hp => by simp [HLS.initMediaState] at hp)
      (fun _ => ⟨rfl, rfl, rfl⟩)
  · intro st raw n h hn
    rw [mediaStep_mseq_ok st raw n h hn]
    exact ⟨rfl, rfl⟩
  · intro st raw d h hd
    rw [mediaStep_extinf_ok st raw d h hd]
    exact ⟨rfl, rfl⟩

/-- Witness for C3 (amended): the `[5,6,7]` example satisfies `wfLines`,
so the contiguity conjunct applies to it. -/
theorem c3_sequence_amended_witness :
    chainFrom
      (HLS.parseMediaManifest
        ("#EXT-X-MEDIA-SEQUENCE:5\n#EXTINF:4.0,\na.ts\n#EXTINF:4.0,\nb.ts\n#EXTINF:4.0,\nc.ts".toList)).mseq
      ((HLS.parseMediaManifest
        ("#EXT-X-MEDIA-SEQUENCE:5\n#EXTINF:4.0,\na.ts\n#EXTINF:4.0,\nb.ts\n#EXTINF:4.0,\nc.ts".toList)).segments.map
        (fun s => s.sequence)) = true :=
  c3_sequence_amended.1
    ("#EXT-X-MEDIA-SEQUENCE:5\n#EXTINF:4.0,\na.ts\n#EXTINF:4.0,\nb.ts\n#EXTINF:4.0,\nc.ts".toList)
    (by decide)

/-- Claim C4, counterexample to the claim as stated: the hls parser's
`splitAttributes` (parser.go) does *not* trim its segments — on input
`" A=1"` it returns the segment with its leading space intact. -/
theorem c4_counterexample :
    HLS.splitAttributes (" A=1".toList) = [" A=1".toList] ∧
    trimSpace (" A=1".toList) ≠ " A=1".toList := by
  decide

/-- Claim C4 (amended): both `splitAttributes` copies scan left to right
toggling `inQuotes` on `"`, split on commas only outside quotes, keep the
quote characters, drop empty segments from consecutive separators, and
accept an unbalanced quote to end of input; the renderer's copy
(manifest_renderer.go) additionally trims each emitted segment, while the
parser's copy (parser.go) emits segments untrimmed (it only guarantees
them non-empty; trimming happens later in `parseAttributes`).  Conjuncts:
every renderer segment is trim-invariant; every parser segment is
non-empty; the quote-aware split of `A=1,B="x,y",C=3` (comma inside
quotes not a separator, quotes retained); consecutive separators dropped
by both; unbalanced quote runs to end of input. -/
theorem c4_tokenizer_amended :
    (∀ (s part : List Char), part ∈ Views.splitAttributes s → trimSpace part = part) ∧
    (∀ (s part : List Char), part ∈ HLS.splitAttributes s → part ≠ []) ∧
    HLS.splitAttributes ("A=1,B=\"x,y\",C=3".toList) =
      ["A=1".toList, "B=\"x,y\"".toList, "C=3".toList] ∧
    (HLS.splitAttributes ("a,,b".toList) = ["a".toList, "b".toList] ∧
     Views.splitAttributes ("a,,b".toList) = ["a".toList, "b".toList]) ∧
    HLS.splitAttributes ("A=\"xy".toList) = ["A=\"xy".toList] := by
  refine ⟨?_, ?_, by decide, by decide, by decide⟩
  · intro s part hp
    exact views_splitAttrsAux_trimmed s false [] part hp
  · intro s part hp
    exact hls_splitAttrsAux_ne_nil s false [] part hp

/-- Witness for C4 (amended): the trim-invariance conjunct at a concrete
renderer tokenization. -/
theorem c4_tokenizer_amended_witness :
    trimSpace ("B=\"x,y\"".toList) = "B=\"x,y\"".toList :=
  c4_tokenizer_amended.1 (" A=1 , B=\"x,y\" ".toList) ("B=\"x,y\"".toList) (by decide)

/-- Claim C5: the attribute map parser splits each tokenized segment at
its first `=` (segments without `=` are silently dropped — they leave the
map unchanged, so filtering them away changes nothing), trims the key,
trims the value and strips exactly one layer of surrounding double
quotes, and lets later duplicate keys overwrite earlier ones; on
`CODECS="avc1.77.30,mp4a.40.2"` it yields the single pair
`CODECS ↦ avc1.77.30,mp4a.40.2` (the comma inside quotes is not a
separator). -/
theorem c5_attribute_map :
    HLS.parseAttributes ("CODECS=\"avc1.77.30,mp4a.40.2\"".toList) =
      [("CODECS".toList, "avc1.77.30,mp4a.40.2".toList)] ∧
    (∀ (parts : List (List Char)) (m : HLS.AttrMap),
      HLS.parseAttrsAux (parts.filter (fun p => (indexOfChar p '=').isSome)) m =
        HLS.parseAttrsAux parts m) ∧
    (∀ (m : HLS.AttrMap) (part : List Char) (i : Nat),
      indexOfChar part '=' = some i →
      HLS.parseAttrsAux [part] m =
        HLS.insertAttr m (trimSpace (part.take i))
          (HLS.stripQuotes (trimSpace (part.drop (i + 1))))) ∧
    (∀ (m : HLS.AttrMap) (k v : List Char),
      HLS.lookupAttr (HLS.insertAttr m k v) k = some v) ∧
    HLS.parseAttributes ("A=1,A=2".toList) = [("A".toList, "2".toList)] := by
  refine ⟨by decide, parseAttrsAux_filter, ?_, lookupAttr_insertAttr, by decide⟩
  intro m part i h
  simp [HLS.parseAttrsAux, h]

/-- Witness for C5: the first-`=` split conjunct at a concrete segment. -/
theorem c5_attribute_map_witness :
    HLS.parseAttrsAux ["CODECS=x".toList] [] =
      HLS.insertAttr [] (trimSpace (("CODECS=x".toList).take 6))
        (HLS.stripQuotes (trimSpace (("CODECS=x".toList).drop 7))) :=
  c5_attribute_map.2.2.1 [] ("CODECS=x".toList) 6 (by decide)

/-- Claim C6: content-level malformation never fails the parse.  Every
input yields a classified Manifest; a `#EXT-X-STREAM-INF:` whose
`BANDWIDTH` is missing or unparsable still produces a pending Variant,
with `bandwidth = 0`; and concretely a document with `BANDWIDTH=abc`
still has that Variant appended and the rest of the document parsed. -/
theorem c6_malformed_degrades :
    (∀ content : List Char,
      (HLS.parseContent content).mtype = HLS.ManifestType.master ∨
      (HLS.parseContent content).mtype = HLS.ManifestType.media) ∧
    (∀ (st : HLS.MasterState) (raw : List Char),
      startsWith (trimSpace raw) HLS.cSTREAMINF = true →
      (match HLS.lookupAttr
          (HLS.parseAttributes (dropStart (trimSpace raw) HLS.cSTREAMINF)) HLS.aBANDWIDTH with
       | some b => goAtoi b = none
       | none => True) →
      ∃ v, (HLS.masterStep st raw).pending = some v ∧ v.bandwidth = 0) ∧
    (HLS.parseContent
        ("#EXT-X-STREAM-INF:BANDWIDTH=abc\nv1.m3u8\n#EXT-X-STREAM-INF:BANDWIDTH=500\nv2.m3u8".toList)).variants.map
      (fun v => (v.uri, v.bandwidth)) =
      [("v1.m3u8".toList, 0), ("v2.m3u8".toList, 500)] := by
  refine ⟨?_, ?_, by decide⟩
  · intro content
    unfold HLS.parseContent
    by_cases h : HLS.isMasterManifest content <;> simp [h]
  · intro st raw h hb
    rw [masterStep_streaminf st raw h]
    refine ⟨_, rfl, ?_⟩
    rw [variantOfAttrs_bandwidth]
    cases hx : HLS.lookupAttr
        (HLS.parseAttributes (dropStart (trimSpace raw) HLS.cSTREAMINF)) HLS.aBANDWIDTH with
    | none => rfl
    | some b =>
      rw [hx] at hb
      simp [hb]

/-- Witness for C6: the bandwidth-degradation conjunct at
`BANDWIDTH=abc`. -/
theorem c6_malformed_degrades_witness :
    ((HLS.masterStep HLS.initMasterState
        ("#EXT-X-STREAM-INF:BANDWIDTH=abc".toList)).pending.map HLS.Variant.bandwidth) =
      some 0 := by
  obtain ⟨v, hv, hb⟩ := c6_malformed_degrades.2.1 HLS.initMasterState
    ("#EXT-X-STREAM-INF:BANDWIDTH=abc".toList) (by decide)
    (by
      have h : HLS.lookupAttr
          (HLS.parseAttributes
            (dropStart (trimSpace ("#EXT-X-STREAM-INF:BANDWIDTH=abc".toList)) HLS.cSTREAMINF))
          HLS.aBANDWIDTH = some ("abc".toList) := by decide
      rw [h]
      decide)
  rw [hv]
  simp [hb]

/-- Claim C7: the navigable-item extractor maps line `i+1` to exactly
`navLineTarget` of the `i`-th raw line: the trimmed line itself when
non-empty and not `#`-prefixed; for `#EXT-X-I-FRAME-STREAM-INF:` /
`#EXT-X-MEDIA:` lines the `URI=` value — quoted values read to the next
`"` with no escape handling and first match winning, unquoted values read
to the next comma or end of line — and every other line is omitted.
Conjuncts: the full per-line characterization of the produced map; the
quoted, comma-terminated and end-of-line extraction rules; no escape
handling (`URI="a\"b"` yields `a\`); first match wins for the closing
quote/attribute. -/
theorem c7_navigable_items :
    (∀ (content : List Char) (i : Nat),
      Views.lookupNav (Views.getNavigableItems content) (1 + i) =
        (nthStr (splitOnChar '\n' content) i).bind navLineTarget) ∧
    (∀ (line u post : List Char) (k : Nat),
      indexOfSub line ("URI=".toList) = some k →
      line.drop (k + 4) = '"' :: (u ++ '"' :: post) →
      '"' ∉ u →
      Views.extractAttributeValue line HLS.aURI = u) ∧
    (∀ (line u post : List Char) (k : Nat),
      indexOfSub line ("URI=".toList) = some k →
      line.drop (k + 4) = u ++ ',' :: post →
      startsWith u ("\"".toList) = false →
      ',' ∉ u →
      Views.extractAttributeValue line HLS.aURI = u) ∧
    (∀ (line u : List Char) (k : Nat),
      indexOfSub line ("URI=".toList) = some k →
      line.drop (k + 4) = u →
      startsWith u ("\"".toList) = false →
      ',' ∉ u →
      Views.extractAttributeValue line HLS.aURI = u) ∧
    Views.extractAttributeValue ("#EXT-X-MEDIA:URI=\"a\\\"b\"".toList) HLS.aURI =
      "a\\".toList ∧
    Views.extractAttributeValue ("#EXT-X-MEDIA:URI=\"a\",URI=\"b\"".toList) HLS.aURI =
      "a".toList := by
  refine ⟨?_, extractAttributeValue_quoted, extractAttributeValue_unquoted_comma,
    extractAttributeValue_unquoted_eol, by decide, by decide⟩
  intro content i
  exact lookupNav_navAux (splitOnChar '\n' content) 1 i

/-- Witness for C7: the quoted-extraction conjunct at a concrete
`#EXT-X-MEDIA:` line. -/
theorem c7_navigable_items_witness :
    Views.extractAttributeValue ("#EXT-X-MEDIA:URI=\"audio.m3u8\",TYPE=AUDIO".toList)
      HLS.aURI = "audio.m3u8".toList :=
  c7_navigable_items.2.1 ("#EXT-X-MEDIA:URI=\"audio.m3u8\",TYPE=AUDIO".toList)
    ("audio.m3u8".toList) (",TYPE=AUDIO".toList) 13 (by decide) (by decide) (by decide)

/-- Claim C8: `ResolveURL` returns any input already carrying an
`http://` or `https://` scheme unchanged, and is therefore idempotent on
such inputs — for every fallback resolution of the non-absolute branch
and every base. -/
theorem c8_resolve_absolute (fallback : List Char → List Char → List Char)
    (baseURL u : List Char)
    (h : startsWith u HLS.cHTTP = true ∨ startsWith u HLS.cHTTPS = true) :
    HLS.resolveURL fallback baseURL u = u ∧
    HLS.resolveURL fallback baseURL (HLS.resolveURL fallback baseURL u) =
      HLS.resolveURL fallback baseURL u := by
  have h1 : HLS.resolveURL fallback baseURL u = u := by
    unfold HLS.resolveURL
    rw [if_pos h]
  exact ⟨h1, by rw [h1, h1]⟩

/-- Witness for C8 at a concrete absolute URL. -/
theorem c8_resolve_absolute_witness :
    HLS.resolveURL (fun b r => b ++ r) ("https://example.com/video".toList)
        ("https://other.com/segment.ts".toList) =
      "https://other.com/segment.ts".toList ∧
    HLS.resolveURL (fun b r => b ++ r) ("https://example.com/video".toList)
        (HLS.resolveURL (fun b r => b ++ r) ("https://example.com/video".toList)
          ("https://other.com/segment.ts".toList)) =
      HLS.resolveURL (fun b r => b ++ r) ("https://example.com/video".toList)
        ("https://other.com/segment.ts".toList) :=
  c8_resolve_absolute (fun b r => b ++ r) ("https://example.com/video".toList)
    ("https://other.com/segment.ts".toList) (Or.inr (by decide))

/-- Claim C9, counterexample to the claim as stated: after
`#EXTINF:1,` / `#EXTINF:abc,` / `x.ts`, the duration of the second
`#EXTINF:` does not parse, yet the URI line that follows it *is*
committed — it commits the stale pending segment left by the first
`#EXTINF:`. -/
theorem c9_counterexample :
    goParseFloat ("abc".toList) = none ∧
    (HLS.parseMediaManifest ("#EXTINF:1,\n#EXTINF:abc,\nx.ts".toList)).segments.map
      HLS.Segment.uri = ["x.ts".toList] := by
  decide

/-- Claim C9 (amended): an `#EXTINF:` line whose duration does not parse
creates no pending segment, leaves any existing pending segment, the
committed segments, and the running sequence counter untouched; a URI
line is never committed when no pending segment exists (so absent a stale
pending segment, the entry is omitted from `segments` entirely); and a
stale pending segment from an earlier `#EXTINF:` may still be committed
by the following URI line. -/
theorem c9_extinf_fail_amended :
    (∀ (st : HLS.MediaState) (raw : List Char),
      startsWith (trimSpace raw) HLS.cEXTINF = true →
      goParseFloat (HLS.durOf (trimSpace raw)) = none →
      (HLS.mediaStep st raw).pending = st.pending ∧
      (HLS.mediaStep st raw).seq = st.seq ∧
      (HLS.mediaStep st raw).segments = st.segments) ∧
    (∀ (st : HLS.MediaState) (raw : List Char),
      st.pending = none → (HLS.mediaStep st raw).segments = st.segments) ∧
    ((HLS.parseMediaManifest ("#EXTINF:abc,\nx.ts".toList)).segments = [] ∧
     (HLS.parseMediaManifest ("#EXTINF:abc,\nx.ts".toList)).seq = 0) := by
  refine ⟨?_, ?_, by decide⟩
  · intro st raw h hd
    rw [mediaStep_extinf_bad st raw h hd]
    exact ⟨rfl, rfl, rfl⟩
  · intro st raw h
    rcases mediaStep_segments_extend st raw with he | ⟨p, hp, _⟩
    · exact he
    · rw [h] at hp
      cases hp

/-- Witness for C9 (amended): the failed-parse conjunct at
`#EXTINF:abc,` from the initial state. -/
theorem c9_extinf_fail_amended_witness :
    (HLS.mediaStep HLS.initMediaState ("#EXTINF:abc,".toList)).pending = none ∧
    (HLS.mediaStep HLS.initMediaState ("#EXTINF:abc,".toList)).seq = 0 := by
  obtain ⟨h1, h2, _⟩ := c9_extinf_fail_amended.1 HLS.initMediaState
    ("#EXTINF:abc,".toList) (by decide) (by decide)
  exact ⟨by rw [h1]; rfl, by rw [h2]; rfl⟩

/-- Claim C10: a pending Variant or Segment never followed by a
committing (non-`#`, non-empty) line before end of input is discarded —
over such lines `variants` / `segments` never grow, so the dangling
pending entity never appears in them; and a new `#EXT-X-STREAM-INF:` tag
seen while a Variant is pending replaces the pending Variant without
committing it, silently losing the earlier one (concretely, two
back-to-back `#EXT-X-STREAM-INF:` tags and one URI yield only the second
variant; a lone trailing `#EXTINF:` yields no segment). -/
theorem c10_pending_discard :
    (∀ (st : HLS.MasterState) (ls : List (List Char)),
      (∀ l ∈ ls, trimSpace l = [] ∨ startsWith (trimSpace l) HLS.cHASH = true) →
      (HLS.masterRun st ls).variants = st.variants) ∧
    (∀ (st : HLS.MediaState) (ls : List (List Char)),
      (∀ l ∈ ls, trimSpace l = [] ∨ startsWith (trimSpace l) HLS.cHASH = true) →
      (HLS.mediaRun st ls).segments = st.segments) ∧
    (∀ (st : HLS.MasterState) (raw : List Char),
      startsWith (trimSpace raw) HLS.cSTREAMINF = true →
      (HLS.masterStep st raw).pending =
        some (HLS.variantOfAttrs
          (HLS.parseAttributes (dropStart (trimSpace raw) HLS.cSTREAMINF))) ∧
      (HLS.masterStep st raw).variants = st.variants) ∧
    (HLS.parseMasterManifest
        ("#EXT-X-STREAM-INF:BANDWIDTH=1\n#EXT-X-STREAM-INF:BANDWIDTH=2\nv.m3u8".toList)).variants.map
      HLS.Variant.bandwidth = [2] ∧
    (HLS.parseMediaManifest ("#EXTINF:1,".toList)).segments = [] := by
  refine ⟨?_, ?_, ?_, by decide, by decide⟩
  · intro st ls hl
    exact masterRun_nocommit ls st hl
  · intro st ls hl
    exact mediaRun_nocommit ls st hl
  · intro st raw h
    rw [masterStep_streaminf st raw h]
    exact ⟨rfl, rfl⟩

/-- Witness for C10: the no-commit conjunct over a concrete all-`#` line
list. -/
theorem c10_pending_discard_witness :
    (HLS.masterRun HLS.initMasterState
      ["#EXT-X-STREAM-INF:BANDWIDTH=7".toList, "# end".toList]).variants = [] := by
  rw [c10_pending_discard.1 HLS.initMasterState
    ["#EXT-X-STREAM-INF:BANDWIDTH=7".toList, "# end".toList] (by decide)]
  rfl
